import Mathlib

/-!
A shallow embedding of the `type-transform` JavaScript utility library
(src/index.js) and proofs about its conversion functions.

Modelling conventions:
* A JavaScript runtime value is the inductive type `Value` below, following
  the spec's data model: a tagged union over number, string, boolean, bigint,
  symbol, null, undefined, array and plain object, plus function values
  (functions occur in the source only as non-serializable inputs).
* JavaScript numbers are modelled as exact rationals `ℚ`.  The special float
  values NaN and ±Infinity are not representable as `Value`s; a NaN produced
  *internally* by a parse or coercion is modelled as `Option ℚ = none`, which
  is how the source observes NaN (`isNaN` checks directly after producing it).
* Machine floats never overflow in this model; all numeric literals the
  library manipulates are exact decimal fractions, which every JavaScript
  float that prints as a finite decimal is.
* Thrown exceptions are `Except JsError` results; `JsError` records the
  constructor name (`Error`, `TypeError`, `SyntaxError`) and the exact
  message string, since the messages are part of the observable contract.
* Platform builtins used by the source (`typeof`, `Array.isArray`,
  `String(...)`, `Number(...)`, `BigInt(...)`, `parseInt`, `parseFloat`,
  `JSON.stringify`, `JSON.parse`) are modelled from their standard semantics;
  everything else is translated directly from src/index.js.
-/

/-- A thrown JavaScript exception: its constructor name and message. -/
structure JsError where
  name : String
  message : String
deriving DecidableEq, Repr

/-- A JavaScript runtime value (the spec's tagged union of categories).
Symbols carry their optional description; functions carry their name
(their body is irrelevant to every operation in the library). -/
inductive Value where
  | vNum (q : ℚ)
  | vStr (s : String)
  | vBool (b : Bool)
  | vBigInt (i : ℤ)
  | vSym (desc : Option String)
  | vNull
  | vUndef
  | vArr (elems : List Value)
  | vObj (fields : List (String × Value))
  | vFunc (name : String)

/-- A parsed JSON document (the image of `JSON.parse`). -/
inductive JValue where
  | jNull
  | jBool (b : Bool)
  | jNum (q : ℚ)
  | jStr (s : String)
  | jArr (elems : List JValue)
  | jObj (fields : List (String × JValue))

/-- The `typeof` operator.  Note `typeof null = "object"`, as in JavaScript. -/
def jsTypeof : Value → String
  | .vNum _ => "number"
  | .vStr _ => "string"
  | .vBool _ => "boolean"
  | .vBigInt _ => "bigint"
  | .vSym _ => "symbol"
  | .vUndef => "undefined"
  | .vNull => "object"
  | .vArr _ => "object"
  | .vObj _ => "object"
  | .vFunc _ => "function"

/-- The `Array.isArray` predicate. -/
def isArrayV : Value → Bool
  | .vArr _ => true
  | _ => false

/-- Whether a value is exactly `null`. -/
def isNullV : Value → Bool
  | .vNull => true
  | _ => false

/-- Whether a value is exactly `undefined`. -/
def isUndefV : Value → Bool
  | .vUndef => true
  | _ => false

/-! ### Character and digit utilities

All string processing works on `String.data` (the character list), with
hand-rolled helpers, so that every definition reduces by kernel computation.
-/

/-- Decimal digit test. -/
def isDigitC (c : Char) : Bool := '0' ≤ c && c ≤ '9'

/-- JavaScript whitespace test (the characters relevant to trimming). -/
def isWsC (c : Char) : Bool := c == ' ' || c == '\n' || c == '\t' || c == '\r'

/-- Drop leading whitespace. -/
def skipWsL : List Char → List Char
  | c :: cs => if isWsC c then skipWsL cs else c :: cs
  | [] => []

/-- Whether a character occurs in a list (models `String.prototype.includes`
for a single-character needle). -/
def charContains (cs : List Char) (c : Char) : Bool := cs.any (fun x => x == c)

/-- Split off the maximal leading run of decimal digits. -/
def takeDigits : List Char → List Char × List Char
  | [] => ([], [])
  | c :: cs =>
    if isDigitC c then
      let p := takeDigits cs
      (c :: p.1, p.2)
    else ([], c :: cs)

/-- Numeric value of a digit run (most significant first). -/
def digitsToNat (ds : List Char) : ℕ :=
  ds.foldl (fun acc c => acc * 10 + (c.toNat - 48)) 0

/-- The character for digit `d < 10`. -/
def digitChar (d : ℕ) : Char := Char.ofNat (48 + d)

/-- Decimal digit characters of `n`, most significant first; fuel-recursive so
that it reduces by kernel computation.  Any `fuel > n` gives the digits. -/
def natDigitsF : ℕ → ℕ → List Char
  | 0, _ => []
  | fuel + 1, n =>
    if n < 10 then [digitChar n]
    else natDigitsF fuel (n / 10) ++ [digitChar (n % 10)]

/-- Decimal digit characters of `n`, most significant first. -/
def natDigits (n : ℕ) : List Char := natDigitsF (n + 1) n

/-- Digits of `m` left-padded with zeros to width `k` (used for the fractional
part of a decimal rendering, where `m < 10^k`). -/
def padDigits (k m : ℕ) : List Char :=
  List.replicate (k - (natDigits m).length) '0' ++ natDigits m

/-- Characters of an integer: optional minus sign, then decimal digits. -/
def intChars (i : ℤ) : List Char :=
  (if i < 0 then ['-'] else []) ++ natDigits i.natAbs

/-- String form of an integer (models `String(bigint)`). -/
def intToString (i : ℤ) : String := String.mk (intChars i)

/-- How many times `p` divides `n` (fuel-recursive; `divCount p n` below
supplies sufficient fuel). -/
def divCountF : ℕ → ℕ → ℕ → ℕ
  | 0, _, _ => 0
  | fuel + 1, p, n =>
    if 2 ≤ p ∧ 0 < n ∧ n % p = 0 then divCountF fuel p (n / p) + 1 else 0

/-- Multiplicity of `p` in `n`. -/
def divCount (p n : ℕ) : ℕ := divCountF n p n

/-- The least exponent `k` with `d ∣ 10^k`, for denominators `d = 2^a·5^b`:
`d`'s 2-adic valuation joined with the 5-adic valuation of its odd part. -/
def decExp (d : ℕ) : ℕ :=
  max (divCount 2 d) (divCount 5 (d / 2 ^ divCount 2 d))

/-- Whether a rational has a finite decimal expansion with `decExp` digits:
true of every JavaScript float, whose value is a dyadic rational. -/
def isDecRat (q : ℚ) : Bool := decide (q.den ∣ 10 ^ decExp q.den)

/-- Characters of the decimal rendering of `q` (sign, integer part, and a
fractional part when nonzero), the display form JavaScript gives a number
whose value is the decimal `q`.  Faithful for `isDecRat` rationals. -/
def renderNumL (q : ℚ) : List Char :=
  let k := decExp q.den
  let m := q.num.natAbs * 10 ^ k / q.den
  let ip := m / 10 ^ k
  let fp := m % 10 ^ k
  (if q.num < 0 then ['-'] else []) ++ natDigits ip ++
    (if fp = 0 then [] else '.' :: padDigits k fp)

/-- Display text of a number (models `String(number)` for decimal values). -/
def numToString (q : ℚ) : String := String.mk (renderNumL q)

/-! ### String conversion builtins

`String(value)` and the implicit ToString used by `+` and template literals.
They differ only on bare symbols (the implicit conversion throws).  Arrays
stringify via `Array.prototype.join(",")`, whose elements render null and
undefined as empty text and throw on symbols.
-/

/-- Display text of a function value.  The platform shows the source text;
the model abstracts it to a canonical form (no operation in the library
depends on it). -/
def funcToString (n : String) : String := "function " ++ n ++ "() \x7b\x7d"

mutual
/-- One element of `Array.prototype.join`: null and undefined render empty,
symbols throw, everything else renders as `String(element)`. -/
def joinOne : Value → Except JsError String
  | .vNull => .ok ""
  | .vUndef => .ok ""
  | .vSym _ => .error ⟨"TypeError", "Cannot convert a Symbol to a string"⟩
  | .vStr s => .ok s
  | .vNum q => .ok (numToString q)
  | .vBool b => .ok (if b then "true" else "false")
  | .vBigInt i => .ok (intToString i)
  | .vFunc n => .ok (funcToString n)
  | .vArr xs => joinElems xs
  | .vObj _ => .ok "[object Object]"
/-- `Array.prototype.join(",")` over the modelled elements. -/
def joinElems : List Value → Except JsError String
  | [] => .ok ""
  | [x] => joinOne x
  | x :: y :: ys => do
    let s ← joinOne x
    let t ← joinElems (y :: ys)
    .ok (s ++ "," ++ t)
end

/-- The `String(value)` builtin (symbol-tolerant). -/
def jsStringForce : Value → Except JsError String
  | .vStr s => .ok s
  | .vNum q => .ok (numToString q)
  | .vBool b => .ok (if b then "true" else "false")
  | .vBigInt i => .ok (intToString i)
  | .vSym (some d) => .ok ("Symbol(" ++ d ++ ")")
  | .vSym none => .ok "Symbol()"
  | .vNull => .ok "null"
  | .vUndef => .ok "undefined"
  | .vFunc n => .ok (funcToString n)
  | .vArr xs => joinElems xs
  | .vObj _ => .ok "[object Object]"

/-- The implicit ToString conversion (template literals, `+`): like
`String(value)` but throws on bare symbols. -/
def jsToStr : Value → Except JsError String
  | .vSym _ => .error ⟨"TypeError", "Cannot convert a Symbol to a string"⟩
  | v => jsStringForce v

/-! ### Numeric conversion builtins -/

/-- Read an optional sign character; `true` means negative. -/
def readSign : List Char → Bool × List Char
  | '-' :: r => (true, r)
  | '+' :: r => (false, r)
  | cs => (false, cs)

/-- The rational `±m · 10^e / 10^fracLen`, built with a single `mkRat` so
that it reduces by kernel computation. -/
def decScaled (neg : Bool) (m fracLen : ℕ) (e : ℤ) : ℚ :=
  let mz : ℤ := if neg then -(m : ℤ) else (m : ℤ)
  if 0 ≤ e then mkRat (mz * ((10 ^ e.toNat : ℕ) : ℤ)) (10 ^ fracLen)
  else mkRat mz (10 ^ fracLen * 10 ^ (-e).toNat)

/-- Exponent suffix accepted by `parseFloat`: digits after `e`/`E` and an
optional sign; an incomplete exponent contributes 0 (it is not consumed). -/
def readFloatExp (cs : List Char) : ℤ :=
  let (esgn, r1) := readSign cs
  let (eds, _) := takeDigits r1
  if eds.isEmpty then 0
  else if esgn then -(digitsToNat eds : ℤ) else (digitsToNat eds : ℤ)

/-- The `parseInt(s, 10)` builtin: skip whitespace, optional sign, then the
maximal run of decimal digits; NaN (`none`) when there are no digits. -/
def jsParseInt (s : String) : Option ℤ :=
  let cs := skipWsL s.data
  let (neg, cs1) := readSign cs
  let (ds, _) := takeDigits cs1
  if ds.isEmpty then none
  else some (if neg then -(digitsToNat ds : ℤ) else (digitsToNat ds : ℤ))

/-- The `parseFloat(s)` builtin: skip whitespace, then the longest prefix of
the form `sign? digits ('.' digits*)? exponent?` or `sign? '.' digits+
exponent?`; NaN (`none`) when no digits occur before the exponent.  (The
special prefix `Infinity` is outside this model, which has no infinities.) -/
def jsParseFloat (s : String) : Option ℚ :=
  let cs := skipWsL s.data
  let (neg, cs1) := readSign cs
  let (ids, cs2) := takeDigits cs1
  let (fds, cs3) := match cs2 with
    | '.' :: r => takeDigits r
    | _ => ([], cs2)
  if ids.isEmpty && fds.isEmpty then none
  else
    let e : ℤ := match cs3 with
      | 'e' :: r => readFloatExp r
      | 'E' :: r => readFloatExp r
      | _ => 0
    some (decScaled neg (digitsToNat (ids ++ fds)) fds.length e)

/-- Hexadecimal digit value. -/
def hexValC (c : Char) : Option ℕ :=
  if '0' ≤ c && c ≤ '9' then some (c.toNat - 48)
  else if 'a' ≤ c && c ≤ 'f' then some (c.toNat - 87)
  else if 'A' ≤ c && c ≤ 'F' then some (c.toNat - 55)
  else none

/-- Value of a digit run in base `b`, each digit read by `dv`; `none` when
empty or containing an invalid digit. -/
def radixAll (dv : Char → Option ℕ) (b : ℕ) : List Char → Option ℕ
  | [] => none
  | [c] => dv c
  | c :: cs => do
    let d ← dv c
    let r ← radixAll dv b cs
    some (d * b ^ cs.length + r)

/-- Binary digit value. -/
def binValC (c : Char) : Option ℕ :=
  if c == '0' then some 0 else if c == '1' then some 1 else none

/-- Octal digit value. -/
def octValC (c : Char) : Option ℕ :=
  if '0' ≤ c && c ≤ '7' then some (c.toNat - 48) else none

/-- Drop trailing whitespace. -/
def trimEndWs (cs : List Char) : List Char :=
  (skipWsL cs.reverse).reverse

/-- Trim whitespace at both ends. -/
def trimWsL (cs : List Char) : List Char := trimEndWs (skipWsL cs)

/-- A full-match decimal literal `sign? digits ('.' digits*)? exp?` (or with
the digits only after the point), as used by `Number("...")`: unlike
`parseFloat`, trailing garbage or an incomplete exponent is NaN. -/
def strDecimalFull (cs : List Char) : Option ℚ :=
  let (neg, cs1) := readSign cs
  let (ids, cs2) := takeDigits cs1
  let (fds, cs3) := match cs2 with
    | '.' :: r => takeDigits r
    | _ => ([], cs2)
  if ids.isEmpty && fds.isEmpty then none
  else
    match cs3 with
    | [] => some (decScaled neg (digitsToNat (ids ++ fds)) fds.length 0)
    | 'e' :: r => strDecimalExp neg ids fds r
    | 'E' :: r => strDecimalExp neg ids fds r
    | _ => none
where
  strDecimalExp (neg : Bool) (ids fds r : List Char) : Option ℚ :=
    let (esgn, r1) := readSign r
    let (eds, r2) := takeDigits r1
    if eds.isEmpty || !r2.isEmpty then none
    else
      let e : ℤ := if esgn then -(digitsToNat eds : ℤ) else (digitsToNat eds : ℤ)
      some (decScaled neg (digitsToNat (ids ++ fds)) fds.length e)

/-- The string-to-number conversion of `Number("...")`: trim, empty is 0,
`0x`/`0b`/`0o` radix literals, else a full-match decimal literal.  (The
`Infinity` literals are outside this model, which has no infinities.) -/
def jsStringToNumber (s : String) : Option ℚ :=
  match trimWsL s.data with
  | [] => some 0
  | '0' :: 'x' :: r => (radixAll hexValC 16 r).map (fun n => (n : ℚ))
  | '0' :: 'X' :: r => (radixAll hexValC 16 r).map (fun n => (n : ℚ))
  | '0' :: 'b' :: r => (radixAll binValC 2 r).map (fun n => (n : ℚ))
  | '0' :: 'B' :: r => (radixAll binValC 2 r).map (fun n => (n : ℚ))
  | '0' :: 'o' :: r => (radixAll octValC 8 r).map (fun n => (n : ℚ))
  | '0' :: 'O' :: r => (radixAll octValC 8 r).map (fun n => (n : ℚ))
  | cs => strDecimalFull cs

/-- The `Number(value)` builtin: `none` is NaN; symbols throw. -/
def jsNumberOf : Value → Except JsError (Option ℚ)
  | .vNum q => .ok (some q)
  | .vStr s => .ok (jsStringToNumber s)
  | .vBool b => .ok (some (if b then 1 else 0))
  | .vNull => .ok (some 0)
  | .vUndef => .ok none
  | .vBigInt i => .ok (some (i : ℚ))
  | .vSym _ => .error ⟨"TypeError", "Cannot convert a Symbol to a number"⟩
  | .vArr xs => (joinElems xs).map jsStringToNumber
  | .vObj _ => .ok (jsStringToNumber "[object Object]")
  | .vFunc n => .ok (jsStringToNumber (funcToString n))

/-- The `Boolean(value)` builtin: total, never throws. -/
def jsToBoolean : Value → Bool
  | .vBool b => b
  | .vNum q => if q = 0 then false else true
  | .vStr s => if s = "" then false else true
  | .vBigInt i => if i = 0 then false else true
  | .vNull => false
  | .vUndef => false
  | .vSym _ => true
  | .vArr _ => true
  | .vObj _ => true
  | .vFunc _ => true

/-- A full-match integer literal `sign? digits`, for `BigInt("...")`
(no decimal point, no exponent). -/
def strIntFull (cs : List Char) : Option ℤ :=
  let (neg, cs1) := readSign cs
  let (ds, r) := takeDigits cs1
  if ds.isEmpty || !r.isEmpty then none
  else some (if neg then -(digitsToNat ds : ℤ) else (digitsToNat ds : ℤ))

/-- The string-to-bigint conversion of `BigInt("...")`: trim, empty is 0,
radix literals, else a full-match integer (fractional text fails). -/
def jsStringToBigInt (s : String) : Option ℤ :=
  match trimWsL s.data with
  | [] => some 0
  | '0' :: 'x' :: r => (radixAll hexValC 16 r).map (fun n => (n : ℤ))
  | '0' :: 'X' :: r => (radixAll hexValC 16 r).map (fun n => (n : ℤ))
  | '0' :: 'b' :: r => (radixAll binValC 2 r).map (fun n => (n : ℤ))
  | '0' :: 'B' :: r => (radixAll binValC 2 r).map (fun n => (n : ℤ))
  | '0' :: 'o' :: r => (radixAll octValC 8 r).map (fun n => (n : ℤ))
  | '0' :: 'O' :: r => (radixAll octValC 8 r).map (fun n => (n : ℤ))
  | cs => strIntFull cs

/-- The `BigInt(value)` builtin, as observed under a `try`/`catch` that maps
every failure alike: `none` for any thrown conversion error.  An array whose
join itself throws (a symbol element) is also `none` here; the catch block
in the source swallows that error too and re-throws its own. -/
def jsToBigIntOpt : Value → Option ℤ
  | .vBigInt i => some i
  | .vBool b => some (if b then 1 else 0)
  | .vNum q => if q.den = 1 then some q.num else none
  | .vStr s => jsStringToBigInt s
  | .vNull => none
  | .vUndef => none
  | .vSym _ => none
  | .vArr xs =>
    match joinElems xs with
    | .ok s => jsStringToBigInt s
    | .error _ => none
  | .vObj _ => jsStringToBigInt "[object Object]"
  | .vFunc n => jsStringToBigInt (funcToString n)

/-! ### The `+` operator

`addValues` falls through to the platform's `+` for primitive operands (and
for a single array operand paired with a primitive).  ToPrimitive turns an
array into its join text; if either primitive is text the result is the
concatenation of both ToString forms, otherwise both sides convert to a
number (or both are bigints) and add.
-/

/-- ToPrimitive with the default hint, for the operands `+` can see here:
arrays and objects become their display text, primitives pass through. -/
def toPrimitive : Value → Except JsError Value
  | .vArr xs => (joinElems xs).map .vStr
  | .vObj _ => .ok (.vStr "[object Object]")
  | .vFunc n => .ok (.vStr (funcToString n))
  | v => .ok v

/-- ToNumber of a non-string, non-bigint, non-symbol primitive, as used by
the numeric branch of `+`.  `undefined + x` is NaN on the platform; NaN is
not representable as a model `Value`, and `addValues` throws on undefined
before ever reaching `+`, so that case is marked with a model-limit error. -/
def toNumPrim : Value → Except JsError ℚ
  | .vNum q => .ok q
  | .vBool b => .ok (if b then 1 else 0)
  | .vNull => .ok 0
  | .vUndef => .error ⟨"ModelLimit", "NaN is not representable as a Value"⟩
  | _ => .error ⟨"ModelLimit", "operand outside the numeric branch of +"⟩

/-- Whether a value is a string. -/
def isStrV : Value → Bool
  | .vStr _ => true
  | _ => false

/-- Whether a value is a bigint. -/
def isBigIntV : Value → Bool
  | .vBigInt _ => true
  | _ => false

/-- Whether a value is a symbol. -/
def isSymV : Value → Bool
  | .vSym _ => true
  | _ => false

/-- The platform `+` operator on the operands that can reach it from
`addValues` (no plain objects, no undefined, at most one array). -/
def jsAdd (a b : Value) : Except JsError Value := do
  let pa ← toPrimitive a
  let pb ← toPrimitive b
  if isStrV pa || isStrV pb then do
    let sa ← jsToStr pa
    let sb ← jsToStr pb
    return .vStr (sa ++ sb)
  else
    match pa, pb with
    | .vBigInt i, .vBigInt j => return .vBigInt (i + j)
    | .vBigInt _, _ => throw ⟨"TypeError", "Cannot mix BigInt and other types, use explicit conversions"⟩
    | _, .vBigInt _ => throw ⟨"TypeError", "Cannot mix BigInt and other types, use explicit conversions"⟩
    | .vSym _, _ => throw ⟨"TypeError", "Cannot convert a Symbol to a number"⟩
    | _, .vSym _ => throw ⟨"TypeError", "Cannot convert a Symbol to a number"⟩
    | pa, pb => do
      let x ← toNumPrim pa
      let y ← toNumPrim pb
      return .vNum (x + y)

/-! ### The library functions (translated from src/index.js) -/

/-- `addValues(a, b)` from src/index.js: array concatenation for two arrays;
a thrown type-mismatch for any non-null, non-array object operand; a thrown
error for undefined operands; the platform `+` otherwise.  The branch order
is the source's. -/
def addValues (a b : Value) : Except JsError Value :=
  let typeA := jsTypeof a
  let typeB := jsTypeof b
  if isArrayV a && isArrayV b then
    match a, b with
    | .vArr xs, .vArr ys => .ok (.vArr (xs ++ ys))
    | _, _ => .error ⟨"ModelLimit", "unreachable: both operands are arrays"⟩
  else if (typeA == "object" && !isNullV a && !isArrayV a)
       || (typeB == "object" && !isNullV b && !isArrayV b) then
    .error ⟨"Error", "Cannot add values of type \"" ++ typeA ++ "\" and \"" ++ typeB ++ "\"."⟩
  else if isUndefV a || isUndefV b then
    .error ⟨"Error", "Cannot add undefined values."⟩
  else
    jsAdd a b

/-- `invertBoolean(val)` from src/index.js. -/
def invertBoolean (val : Value) : Except JsError Value :=
  if jsTypeof val == "boolean" then
    match val with
    | .vBool b => .ok (.vBool (!b))
    | _ => .error ⟨"ModelLimit", "unreachable: typeof is boolean"⟩
  else
    .error ⟨"Error", "Argument is not a boolean."⟩

/-- The object/array branch of `convertToNumber`: `Number(value)` and a
thrown error when it is NaN. -/
def convertObjToNumber (value : Value) : Except JsError Value :=
  match jsNumberOf value with
  | .error e => .error e
  | .ok (some q) => .ok (.vNum q)
  | .ok none => .error ⟨"Error", "Cannot convert object to number."⟩

/-- `convertToNumber(value)` from src/index.js.  The source dispatches on
`typeof` in order (number, string, boolean, null, undefined, object, rest);
the constructors of `Value` are disjoint, so the match reproduces exactly
that dispatch, including `null` being tested before the `object` branch. -/
def convertToNumber : Value → Except JsError Value
  | .vNum q => .ok (.vNum q)
  | .vStr s =>
    let parsed : Option ℚ :=
      if charContains s.data '.' then jsParseFloat s
      else (jsParseInt s).map (fun i => (i : ℚ))
    match parsed with
    | none => .error ⟨"Error", "Cannot convert string to number."⟩
    | some q => .ok (.vNum q)
  | .vBool b => .ok (.vNum (if b then 1 else 0))
  | .vNull => .ok (.vNum 0)
  | .vUndef => .error ⟨"Error", "Cannot convert undefined to number."⟩
  | .vArr xs => convertObjToNumber (.vArr xs)
  | .vObj fs => convertObjToNumber (.vObj fs)
  | .vSym d => .error ⟨"Error", "Cannot convert type \"" ++ jsTypeof (.vSym d) ++ "\" to number."⟩
  | .vBigInt i => .error ⟨"Error", "Cannot convert type \"" ++ jsTypeof (.vBigInt i) ++ "\" to number."⟩
  | .vFunc n => .error ⟨"Error", "Cannot convert type \"" ++ jsTypeof (.vFunc n) ++ "\" to number."⟩

/-- `coerceToType(value, type)` from src/index.js: the switch over the
target-type tag. -/
def coerceToType (value : Value) (type : String) : Except JsError Value :=
  match type with
  | "string" => (jsStringForce value).map .vStr
  | "number" =>
    match jsNumberOf value with
    | .error e => .error e
    | .ok (some q) => .ok (.vNum q)
    | .ok none =>
      match jsToStr value with
      | .error e => .error e
      | .ok s => .error ⟨"Error", "Cannot coerce value to number: " ++ s⟩
  | "boolean" => .ok (.vBool (jsToBoolean value))
  | "bigint" =>
    match jsToBigIntOpt value with
    | some i => .ok (.vBigInt i)
    | none =>
      match jsToStr value with
      | .error e => .error e
      | .ok s => .error ⟨"Error", "Cannot coerce value to bigint: " ++ s⟩
  | "object" =>
    if isNullV value || jsTypeof value == "object" then .ok value
    else .error ⟨"Error", "Cannot coerce value of type \"" ++ jsTypeof value ++ "\" to object."⟩
  | "symbol" =>
    match value with
    | .vSym d => .ok (.vSym d)
    | _ => .error ⟨"Error", "Cannot coerce to symbol unless value is already a symbol."⟩
  | "undefined" =>
    match value with
    | .vUndef => .ok .vUndef
    | _ => .error ⟨"Error", "Cannot coerce value of type \"" ++ jsTypeof value ++ "\" to undefined."⟩
  | t => .error ⟨"Error", "Unsupported target type: \"" ++ t ++ "\"."⟩

/-! ### JSON rendering (the output side of `JSON.stringify`)

Rendering is compact (no whitespace), as `JSON.stringify` with no indent
argument produces.  It works on character lists; `String.mk` wraps the
result.  Numbers render in the fixed-point decimal form of `renderNumL`
(exponent display for magnitudes beyond 10^21 is outside this model).
-/

/-- Lowercase hexadecimal digit character. -/
def hexDigitChar (n : ℕ) : Char :=
  if n < 10 then digitChar n else Char.ofNat (87 + n)

/-- One character of a JSON string, escaped as `JSON.stringify` escapes it:
quote and backslash get a backslash, the five short control escapes are
used where they exist, any other control character becomes a `\u00··`
escape, and everything else stands for itself. -/
def escapeCharL (c : Char) : List Char :=
  if c = '"' then ['\\', '"']
  else if c = '\\' then ['\\', '\\']
  else if c = '\x08' then ['\\', 'b']
  else if c = '\x0c' then ['\\', 'f']
  else if c = '\n' then ['\\', 'n']
  else if c = '\x0d' then ['\\', 'r']
  else if c = '\t' then ['\\', 't']
  else if c.toNat < 32 then
    ['\\', 'u', '0', '0', hexDigitChar (c.toNat / 16), hexDigitChar (c.toNat % 16)]
  else [c]

/-- A JSON string literal: quote, escaped characters, quote. -/
def renderStrL (s : String) : List Char :=
  '"' :: (s.data.flatMap escapeCharL ++ ['"'])

mutual
/-- Characters of the compact JSON rendering of a value. -/
def renderL : JValue → List Char
  | .jNull => ['n', 'u', 'l', 'l']
  | .jBool true => ['t', 'r', 'u', 'e']
  | .jBool false => ['f', 'a', 'l', 's', 'e']
  | .jNum q => renderNumL q
  | .jStr s => renderStrL s
  | .jArr xs => '[' :: (renderElemsL xs ++ [']'])
  | .jObj fs => '\x7b' :: (renderFieldsL fs ++ ['\x7d'])
/-- Comma-separated renderings of array elements. -/
def renderElemsL : List JValue → List Char
  | [] => []
  | [x] => renderL x
  | x :: y :: ys => renderL x ++ ',' :: renderElemsL (y :: ys)
/-- Comma-separated `"key":value` renderings of object members. -/
def renderFieldsL : List (String × JValue) → List Char
  | [] => []
  | [(k, v)] => renderStrL k ++ ':' :: renderL v
  | (k, v) :: g :: fs => renderStrL k ++ ':' :: renderL v ++ ',' :: renderFieldsL (g :: fs)
end

/-! ### JSON parsing (`JSON.parse`)

A recursive-descent parser on character lists, structural on a fuel counter;
`jsonParse` supplies fuel `length + 1`, which suffices for every document
(each recursive step first consumes input).  `none` is a thrown
`SyntaxError`.  Surrogate-pair `\u` escapes are outside this model (Lean
characters are scalar values); the renderer only emits `\u00··` escapes.
-/

/-- The character a single-character JSON escape denotes. -/
def unescapeC : Char → Option Char
  | '"' => some '"'
  | '\\' => some '\\'
  | '/' => some '/'
  | 'b' => some '\x08'
  | 'f' => some '\x0c'
  | 'n' => some '\n'
  | 'r' => some '\r'
  | 't' => some '\t'
  | _ => none

/-- Value of four hexadecimal digits. -/
def hex4 (a b c d : Char) : Option ℕ := do
  let va ← hexValC a
  let vb ← hexValC b
  let vc ← hexValC c
  let vd ← hexValC d
  some (((va * 16 + vb) * 16 + vc) * 16 + vd)

/-- Parse the body of a JSON string after the opening quote.  Raw control
characters are rejected, escapes are decoded (single-character escapes and
four-digit `\u` escapes), and the closing quote ends the string. -/
def parseStrAux (acc : List Char) : List Char → Option (String × List Char)
  | [] => none
  | c :: rest =>
    if c = '"' then some (String.mk acc.reverse, rest)
    else if c = '\\' then
      match rest with
      | 'u' :: a :: b :: x :: y :: r2 =>
        match hex4 a b x y with
        | some n => parseStrAux (Char.ofNat n :: acc) r2
        | none => none
      | e :: r2 =>
        match unescapeC e with
        | some ch => parseStrAux (ch :: acc) r2
        | none => none
      | [] => none
    else if c.toNat < 32 then none
    else parseStrAux (c :: acc) rest

/-- Whether a digit run is a valid JSON integer part (no leading zero). -/
def noLeadZero : List Char → Bool
  | c :: _ :: _ => !(c == '0')
  | _ => true

/-- The exponent part of a JSON number: sign and at least one digit. -/
def parseNumExp (neg : Bool) (ids fds : List Char) (cs : List Char) :
    Option (ℚ × List Char) :=
  let (esgn, r1) := readSign cs
  let (eds, r2) := takeDigits r1
  if eds.isEmpty then none
  else
    let e : ℤ := if esgn then -(digitsToNat eds : ℤ) else (digitsToNat eds : ℤ)
    some (decScaled neg (digitsToNat (ids ++ fds)) fds.length e, r2)

/-- After the integer and fraction digits: an optional exponent, else done. -/
def parseNumTail (neg : Bool) (ids fds cs : List Char) : Option (ℚ × List Char) :=
  match cs with
  | 'e' :: r => parseNumExp neg ids fds r
  | 'E' :: r => parseNumExp neg ids fds r
  | _ => some (decScaled neg (digitsToNat (ids ++ fds)) fds.length 0, cs)

/-- A JSON number: `-? int frac? exp?` with JSON's leading-zero rule and a
mandatory digit after the decimal point. -/
def parseNum (cs : List Char) : Option (ℚ × List Char) :=
  let (neg, cs1) := match cs with
    | '-' :: r => (true, r)
    | _ => (false, cs)
  let (ids, cs2) := takeDigits cs1
  if ids.isEmpty || !noLeadZero ids then none
  else
    match cs2 with
    | '.' :: r =>
      let (fds, cs3) := takeDigits r
      if fds.isEmpty then none else parseNumTail neg ids fds cs3
    | _ => parseNumTail neg ids [] cs2

mutual
/-- Parse one JSON value (leading whitespace allowed). -/
def parseVal : ℕ → List Char → Option (JValue × List Char)
  | 0, _ => none
  | fuel + 1, cs =>
    match skipWsL cs with
    | 'n' :: 'u' :: 'l' :: 'l' :: r => some (.jNull, r)
    | 't' :: 'r' :: 'u' :: 'e' :: r => some (.jBool true, r)
    | 'f' :: 'a' :: 'l' :: 's' :: 'e' :: r => some (.jBool false, r)
    | '"' :: r => (parseStrAux [] r).map (fun p => (.jStr p.1, p.2))
    | '[' :: r =>
      match skipWsL r with
      | ']' :: r1 => some (.jArr [], r1)
      | cs1 => (parseElems fuel cs1).map (fun p => (.jArr p.1, p.2))
    | '\x7b' :: r =>
      match skipWsL r with
      | '\x7d' :: r1 => some (.jObj [], r1)
      | cs1 => (parseFields fuel cs1).map (fun p => (.jObj p.1, p.2))
    | c :: r =>
      if c == '-' || isDigitC c then
        (parseNum (c :: r)).map (fun p => (.jNum p.1, p.2))
      else none
    | [] => none
/-- Parse one or more comma-separated array elements and the closing `]`. -/
def parseElems : ℕ → List Char → Option (List JValue × List Char)
  | 0, _ => none
  | fuel + 1, cs => do
    let (v, r) ← parseVal fuel cs
    match skipWsL r with
    | ',' :: r1 => do
      let (vs, r2) ← parseElems fuel r1
      some (v :: vs, r2)
    | ']' :: r1 => some ([v], r1)
    | _ => none
/-- Parse one or more comma-separated object members and the closing brace. -/
def parseFields : ℕ → List Char → Option (List (String × JValue) × List Char)
  | 0, _ => none
  | fuel + 1, cs =>
    match skipWsL cs with
    | '"' :: r => do
      let (k, r1) ← parseStrAux [] r
      match skipWsL r1 with
      | ':' :: r2 => do
        let (v, r3) ← parseVal fuel r2
        match skipWsL r3 with
        | ',' :: r4 => do
          let (fs, r5) ← parseFields fuel r4
          some ((k, v) :: fs, r5)
        | '\x7d' :: r4 => some ([(k, v)], r4)
        | _ => none
      | _ => none
    | _ => none
end

/-- The `JSON.parse` builtin: a complete document with only trailing
whitespace after the value; `none` is a thrown SyntaxError. -/
def jsonParse (s : String) : Option JValue :=
  match parseVal (s.data.length + 1) s.data with
  | some (j, r) => if (skipWsL r).isEmpty then some j else none
  | none => none

/-! ### Between JSON documents and runtime values -/

mutual
/-- The runtime value `JSON.parse` builds from a parsed document. -/
def jvalToValue : JValue → Value
  | .jNull => .vNull
  | .jBool b => .vBool b
  | .jNum q => .vNum q
  | .jStr s => .vStr s
  | .jArr xs => .vArr (jvalElemsToValue xs)
  | .jObj fs => .vObj (jvalFieldsToValue fs)
/-- Elementwise conversion of an array body. -/
def jvalElemsToValue : List JValue → List Value
  | [] => []
  | x :: xs => jvalToValue x :: jvalElemsToValue xs
/-- Memberwise conversion of an object body. -/
def jvalFieldsToValue : List (String × JValue) → List (String × Value)
  | [] => []
  | (k, v) :: fs => (k, jvalToValue v) :: jvalFieldsToValue fs
end

mutual
/-- The document `JSON.stringify` encodes a value as: `none` for the three
non-serializable categories (undefined, function, symbol), a thrown
TypeError for bigints, and structural encoding otherwise. -/
def valueToJson : Value → Except JsError (Option JValue)
  | .vNull => .ok (some .jNull)
  | .vBool b => .ok (some (.jBool b))
  | .vNum q => .ok (some (.jNum q))
  | .vStr s => .ok (some (.jStr s))
  | .vBigInt _ => .error ⟨"TypeError", "Do not know how to serialize a BigInt"⟩
  | .vUndef => .ok none
  | .vSym _ => .ok none
  | .vFunc _ => .ok none
  | .vArr xs => (elemsToJson xs).map (fun js => some (.jArr js))
  | .vObj fs => (fieldsToJson fs).map (fun gs => some (.jObj gs))
/-- Array elements: a non-serializable element encodes as `null`. -/
def elemsToJson : List Value → Except JsError (List JValue)
  | [] => .ok []
  | x :: xs => do
    let jx ← valueToJson x
    let rest ← elemsToJson xs
    .ok (jx.getD .jNull :: rest)
/-- Object members: a non-serializable member value is dropped. -/
def fieldsToJson : List (String × Value) → Except JsError (List (String × JValue))
  | [] => .ok []
  | (k, v) :: fs => do
    let jv ← valueToJson v
    let rest ← fieldsToJson fs
    match jv with
    | some j => .ok ((k, j) :: rest)
    | none => .ok rest
end

mutual
/-- The value that survives a `JSON.stringify`/`JSON.parse` round trip:
non-serializable object members are dropped, non-serializable array
elements become null.  (The bigint case is never reached from
`stringifyValue`, whose encoder throws on bigints first.) -/
def jsonNormalize : Value → Value
  | .vNull => .vNull
  | .vBool b => .vBool b
  | .vNum q => .vNum q
  | .vStr s => .vStr s
  | .vArr xs => .vArr (normElems xs)
  | .vObj fs => .vObj (normFields fs)
  | .vUndef => .vNull
  | .vSym _ => .vNull
  | .vFunc _ => .vNull
  | .vBigInt _ => .vNull
/-- Round-trip image of an array body. -/
def normElems : List Value → List Value
  | [] => []
  | x :: xs => jsonNormalize x :: normElems xs
/-- Round-trip image of an object body (non-serializable members dropped). -/
def normFields : List (String × Value) → List (String × Value)
  | [] => []
  | (k, v) :: fs =>
    match v with
    | .vUndef => normFields fs
    | .vSym _ => normFields fs
    | .vFunc _ => normFields fs
    | v => (k, jsonNormalize v) :: normFields fs
end

/-! ### Predicates used by the round-trip statements -/

/-- Whether a value is one of the three categories `JSON.stringify` gives no
representation (undefined, symbol, function). -/
def droppableB : Value → Bool
  | .vUndef => true
  | .vSym _ => true
  | .vFunc _ => true
  | _ => false

/-- Whether a value is an array or a plain object. -/
def isCompositeB : Value → Bool
  | .vArr _ => true
  | .vObj _ => true
  | _ => false

mutual
/-- No bigint occurs anywhere in the value (`JSON.stringify` throws on
bigints). -/
def bigintFreeB : Value → Bool
  | .vBigInt _ => false
  | .vArr xs => bigintFreeElems xs
  | .vObj fs => bigintFreeFields fs
  | _ => true
/-- List version of `bigintFreeB`. -/
def bigintFreeElems : List Value → Bool
  | [] => true
  | x :: xs => bigintFreeB x && bigintFreeElems xs
/-- Member version of `bigintFreeB`. -/
def bigintFreeFields : List (String × Value) → Bool
  | [] => true
  | (_, v) :: fs => bigintFreeB v && bigintFreeFields fs
end

mutual
/-- Every number in the value is an exact decimal (`isDecRat`), as every
JavaScript float is. -/
def decRatsB : Value → Bool
  | .vNum q => isDecRat q
  | .vArr xs => decRatsElems xs
  | .vObj fs => decRatsFields fs
  | _ => true
/-- List version of `decRatsB`. -/
def decRatsElems : List Value → Bool
  | [] => true
  | x :: xs => decRatsB x && decRatsElems xs
/-- Member version of `decRatsB`. -/
def decRatsFields : List (String × Value) → Bool
  | [] => true
  | (_, v) :: fs => decRatsB v && decRatsFields fs
end

mutual
/-- Whether any function or symbol value occurs anywhere in the value. -/
def mentionsFnOrSymB : Value → Bool
  | .vFunc _ => true
  | .vSym _ => true
  | .vArr xs => mentionsFnOrSymElems xs
  | .vObj fs => mentionsFnOrSymFields fs
  | _ => false
/-- List version of `mentionsFnOrSymB`. -/
def mentionsFnOrSymElems : List Value → Bool
  | [] => false
  | x :: xs => mentionsFnOrSymB x || mentionsFnOrSymElems xs
/-- Member version of `mentionsFnOrSymB`. -/
def mentionsFnOrSymFields : List (String × Value) → Bool
  | [] => false
  | (_, v) :: fs => mentionsFnOrSymB v || mentionsFnOrSymFields fs
end

/-! ### The remaining library functions -/

/-- `stringifyValue(val)` from src/index.js: `String(val)` for the typeof
categories in the source's `primitives` list (the listed `"null"` is inert,
since `typeof` never yields it), else `JSON.stringify(val)` — which returns
the absent-value sentinel (`none`) for a bare function. -/
def stringifyValue (val : Value) : Except JsError (Option String) :=
  let primitives := ["string", "number", "boolean", "bigint", "symbol", "undefined", "null"]
  if primitives.contains (jsTypeof val) then
    (jsStringForce val).map some
  else
    match valueToJson val with
    | .error e => .error e
    | .ok none => .ok none
    | .ok (some j) => .ok (some (String.mk (renderL j)))

/-- The throwing form of `JSON.parse`, as `safeJsonParse` wraps it. -/
def jsonParseThrow (s : String) : Except JsError Value :=
  match jsonParse s with
  | some j => .ok (jvalToValue j)
  | none => .error ⟨"SyntaxError", "Unexpected token in JSON"⟩

/-- `safeJsonParse(str, fallback)` from src/index.js: the parse result, or
the fallback when parsing throws. -/
def safeJsonParse (str : String) (fallback : Value) : Value :=
  match jsonParseThrow str with
  | .ok v => v
  | .error _ => fallback

/-- `safeJsonParse(str)` with the fallback argument omitted (default null). -/
def safeJsonParseNoFallback (str : String) : Value := safeJsonParse str .vNull

/-! ### Predicates used by claim statements -/

/-- A non-null, non-array object (the operand class `addValues` rejects):
exactly the check in the source's mismatch branch. -/
def isPlainObjB (v : Value) : Bool :=
  jsTypeof v == "object" && !isNullV v && !isArrayV v

/-- Modelled from the spec: the falsy categories claim C6 enumerates for
`coerceToType(value, "boolean")` — empty text, 0, null, undefined, and
false itself. -/
def specFalsyCats (v : Value) : Prop :=
  v = .vStr "" ∨ v = .vNum 0 ∨ v = .vNull ∨ v = .vUndef ∨ v = .vBool false

/-- A remainder that cannot extend a rendered number: empty or headed by a
character that is no digit, `.`, `e` or `E`.  Every JSON delimiter
qualifies. -/
def numDelim : List Char → Bool
  | [] => true
  | c :: _ => !(isDigitC c || c == '.' || c == 'e' || c == 'E')

mutual
/-- Every number in a JSON document is an exact decimal. -/
def jDecB : JValue → Bool
  | .jNum q => isDecRat q
  | .jArr xs => jDecElemsB xs
  | .jObj fs => jDecFieldsB fs
  | _ => true
/-- List version of `jDecB`. -/
def jDecElemsB : List JValue → Bool
  | [] => true
  | x :: xs => jDecB x && jDecElemsB xs
/-- Member version of `jDecB`. -/
def jDecFieldsB : List (String × JValue) → Bool
  | [] => true
  | (_, v) :: fs => jDecB v && jDecFieldsB fs
end

/-! ### Claim theorems -/

/-- C2: for all arrays `a` and `b`, `addValues(a, b)` returns the
concatenation — `a`'s elements followed by `b`'s, order-preserving and not
deduplicated — whose length is `a.length + b.length`. -/
theorem addValues_array_concat (xs ys : List Value) :
    addValues (.vArr xs) (.vArr ys) = .ok (.vArr (xs ++ ys)) ∧
    (xs ++ ys).length = xs.length + ys.length :=
  ⟨rfl, List.length_append xs ys⟩

/-- C3: an array operand paired with a non-null, non-array object operand
(either way around) makes `addValues` throw the type-mismatch error, and
both type names in the message are the classifier's name `"object"` — the
array side reports `"object"` too, since `typeof` has no array case. -/
theorem addValues_array_object_mismatch (xs : List Value) (fs : List (String × Value)) :
    addValues (.vArr xs) (.vObj fs)
      = .error ⟨"Error", "Cannot add values of type \"object\" and \"object\"."⟩ ∧
    addValues (.vObj fs) (.vArr xs)
      = .error ⟨"Error", "Cannot add values of type \"object\" and \"object\"."⟩ ∧
    jsTypeof (.vArr xs) = "object" ∧ jsTypeof (.vObj fs) = "object" :=
  ⟨rfl, rfl, rfl, rfl⟩

/-- C8: when neither operand is a non-null, non-array object and the two are
not both arrays, an undefined operand (either side, or both) makes
`addValues` throw exactly `Cannot add undefined values.`. -/
theorem addValues_undefined (a b : Value)
    (ha : isPlainObjB a = false) (hb : isPlainObjB b = false)
    (hab : ¬(isArrayV a = true ∧ isArrayV b = true))
    (h : a = .vUndef ∨ b = .vUndef) :
    addValues a b = .error ⟨"Error", "Cannot add undefined values."⟩ := by
  have harr : (isArrayV a && isArrayV b) = false := by
    cases ha' : isArrayV a <;> cases hb' : isArrayV b <;> simp_all
  unfold isPlainObjB at ha hb
  have hu : (isUndefV a || isUndefV b) = true := by
    rcases h with rfl | rfl <;> simp [isUndefV]
  simp only [addValues, harr, ha, hb, hu, Bool.false_eq_true, if_false, Bool.or_self,
    if_true, Bool.or_false, Bool.false_or]

/-- Witness for C8 at the spec's concrete scenario `addValues(undefined, 1)`. -/
theorem addValues_undefined_witness :
    addValues .vUndef (.vNum 1) = .error ⟨"Error", "Cannot add undefined values."⟩ :=
  addValues_undefined .vUndef (.vNum 1) rfl rfl (by simp [isArrayV]) (Or.inl rfl)

/-- C10: `invertBoolean` is an involution on booleans — applying it twice is
the identity — and it has no boolean fixed point. -/
theorem invertBoolean_involution (b : Bool) :
    invertBoolean (.vBool b) = .ok (.vBool (!b)) ∧
    (invertBoolean (.vBool b)).bind invertBoolean = .ok (.vBool b) ∧
    invertBoolean (.vBool b) ≠ .ok (.vBool b) := by
  cases b <;>
    exact ⟨rfl, rfl, fun h => Bool.noConfusion (Value.vBool.inj (Except.ok.inj h))⟩

/-- C5: `convertToNumber` returns numeric input unchanged, so it is
idempotent on numeric values. -/
theorem convertToNumber_idempotent_on_numbers (q : ℚ) :
    convertToNumber (.vNum q) = .ok (.vNum q) ∧
    (convertToNumber (.vNum q)).bind convertToNumber = convertToNumber (.vNum q) :=
  ⟨rfl, rfl⟩

/-- C9: a bare function input makes `stringifyValue` return the absent-value
sentinel (the `JSON.stringify` of a function), not the text `"undefined"`,
and it does not throw. -/
theorem stringifyValue_function_sentinel (n : String) :
    stringifyValue (.vFunc n) = .ok none ∧
    stringifyValue (.vFunc n) ≠ .ok (some "undefined") :=
  ⟨rfl, fun h => Option.noConfusion (Except.ok.inj h)⟩

/-- C1: a string containing a decimal point converts through the fractional
parse (`parseFloat`), any other string through the base-10 integer parse
(`parseInt(·, 10)`), and a failed parse (NaN) throws exactly
`Cannot convert string to number.`. -/
theorem convertToNumber_string_spec (s : String) :
    (charContains s.data '.' = true →
      convertToNumber (.vStr s) = match jsParseFloat s with
        | none => .error ⟨"Error", "Cannot convert string to number."⟩
        | some q => .ok (.vNum q)) ∧
    (charContains s.data '.' = false →
      convertToNumber (.vStr s) = match jsParseInt s with
        | none => .error ⟨"Error", "Cannot convert string to number."⟩
        | some i => .ok (.vNum (i : ℚ))) := by
  constructor <;> intro h
  · simp only [convertToNumber, h, if_true]
  · simp only [convertToNumber, h, Bool.false_eq_true, if_false]
    cases jsParseInt s <;> rfl

/-- Witness for C1 at the spec's scenarios `"45.67"` and `"abc"`. -/
theorem convertToNumber_string_spec_witness :
    convertToNumber (.vStr "45.67") = .ok (.vNum (mkRat 4567 100)) ∧
    convertToNumber (.vStr "abc") = .error ⟨"Error", "Cannot convert string to number."⟩ := by
  have h1 := (convertToNumber_string_spec "45.67").1 (by decide)
  have h2 := (convertToNumber_string_spec "abc").2 (by decide)
  exact ⟨h1.trans rfl, h2.trans rfl⟩

/-- Counterexample to C6 as stated: `coerceToType(0n, "boolean")` is `false`,
but the bigint zero is in none of the claim's falsy categories (empty text,
0, null, undefined, false). -/
theorem coerceToType_boolean_bigint_zero_cex :
    coerceToType (.vBigInt 0) "boolean" = .ok (.vBool false) ∧
    ¬ specFalsyCats (.vBigInt 0) := by
  refine ⟨rfl, ?_⟩
  intro h
  rcases h with h | h | h | h | h <;> simp at h

/-- C6 amended: `coerceToType(value, "boolean")` is total (never throws) and
returns false exactly on the falsy values — empty text, 0, bigint 0, null,
undefined, and false itself.  (On the platform NaN is also falsy; NaN is not
representable in this model.) -/
theorem coerceToType_boolean_total (v : Value) :
    coerceToType v "boolean" = .ok (.vBool (jsToBoolean v)) ∧
    (coerceToType v "boolean" = .ok (.vBool false) ↔
      (v = .vStr "" ∨ v = .vNum 0 ∨ v = .vBigInt 0 ∨ v = .vNull ∨ v = .vUndef
        ∨ v = .vBool false)) := by
  have h0 : coerceToType v "boolean" = .ok (.vBool (jsToBoolean v)) := rfl
  refine ⟨h0, ?_⟩
  rw [h0]
  simp only [Except.ok.injEq, Value.vBool.injEq]
  cases v <;> simp [jsToBoolean]

/-- C7: `safeJsonParse` never throws — it is a total function that returns
the fallback on any parse failure and the platform decode result on any
valid document (all-or-nothing, no partial result), and the omitted-fallback
form returns null on failure. -/
theorem safeJsonParse_spec (s : String) (fb : Value) :
    (jsonParse s = none → safeJsonParse s fb = fb) ∧
    (∀ j, jsonParse s = some j → safeJsonParse s fb = jvalToValue j) ∧
    safeJsonParseNoFallback s = safeJsonParse s .vNull := by
  refine ⟨?_, ?_, rfl⟩
  · intro h; simp [safeJsonParse, jsonParseThrow, h]
  · intro j h; simp [safeJsonParse, jsonParseThrow, h]

/-- Witness for C7 at the spec's scenarios: malformed text returns the
fallback; a valid document returns the decoded value. -/
theorem safeJsonParse_spec_witness :
    safeJsonParse "not json" (.vObj []) = .vObj [] ∧
    safeJsonParse "[1,2]" .vNull = .vArr [.vNum 1, .vNum 2] := by
  constructor
  · exact (safeJsonParse_spec "not json" (.vObj [])).1 rfl
  · exact ((safeJsonParse_spec "[1,2]" .vNull).2.1 (.jArr [.jNum 1, .jNum 2]) rfl).trans rfl

/-! ### Digit-level lemmas for the number codec -/

theorem digitChar_toNat {d : ℕ} (h : d < 10) : (digitChar d).toNat = 48 + d := by
  interval_cases d <;> decide

theorem isDigitC_digitChar {d : ℕ} (h : d < 10) : isDigitC (digitChar d) = true := by
  interval_cases d <;> decide

theorem digitChar_eq_zero {d : ℕ} (h : d < 10) (h0 : digitChar d = '0') : d = 0 := by
  have := congrArg Char.toNat h0
  rw [digitChar_toNat h] at this
  simpa using this

theorem natDigitsF_eq : ∀ (n f1 f2 : ℕ), n < f1 → n < f2 → natDigitsF f1 n = natDigitsF f2 n := by
  intro n
  induction n using Nat.strong_induction_on with
  | _ n ih =>
    intro f1 f2 h1 h2
    match f1, h1 with
    | f1 + 1, _ =>
    match f2, h2 with
    | f2 + 1, _ =>
    simp only [natDigitsF]
    by_cases h10 : n < 10
    · simp [h10]
    · have hdiv : n / 10 < n := Nat.div_lt_self (by omega) (by omega)
      simp only [if_neg h10]
      rw [ih (n / 10) hdiv f1 (n / 10 + 1) (by omega) (by omega),
        ih (n / 10) hdiv f2 (n / 10 + 1) (by omega) (by omega)]

/-- One unfolding step of `natDigits`. -/
theorem natDigits_unfold (n : ℕ) :
    natDigits n = if n < 10 then [digitChar n]
      else natDigits (n / 10) ++ [digitChar (n % 10)] := by
  show natDigitsF (n + 1) n = _
  rw [natDigitsF]
  by_cases h10 : n < 10
  · simp [h10]
  · have hdiv : n / 10 < n := Nat.div_lt_self (by omega) (by omega)
    simp only [if_neg h10]
    rw [natDigitsF_eq (n / 10) n (n / 10 + 1) (by omega) (by omega)]
    rfl

theorem natDigits_ne_nil (n : ℕ) : natDigits n ≠ [] := by
  rw [natDigits_unfold]
  by_cases h10 : n < 10 <;> simp [h10]

theorem natDigits_digits (n : ℕ) : ∀ c ∈ natDigits n, isDigitC c = true := by
  induction n using Nat.strong_induction_on with
  | _ n ih =>
    rw [natDigits_unfold]
    intro c hc
    by_cases h10 : n < 10
    · rw [if_pos h10, List.mem_singleton] at hc
      exact hc ▸ isDigitC_digitChar h10
    · rw [if_neg h10, List.mem_append] at hc
      rcases hc with hc | hc
      · exact ih (n / 10) (Nat.div_lt_self (by omega) (by omega)) c hc
      · rw [List.mem_singleton] at hc
        exact hc ▸ isDigitC_digitChar (Nat.mod_lt _ (by omega))

/-- The digit-accumulating fold shifts its seed by one decimal place per
digit. -/
theorem digitsToNat_foldl_acc (ds : List Char) (acc : ℕ) :
    ds.foldl (fun a c => a * 10 + (c.toNat - 48)) acc
      = acc * 10 ^ ds.length + digitsToNat ds := by
  induction ds generalizing acc with
  | nil => simp [digitsToNat]
  | cons c t ih =>
    simp only [List.foldl_cons, List.length_cons, digitsToNat]
    rw [ih, ih (0 * 10 + (c.toNat - 48))]
    ring

theorem digitsToNat_natDigits (n : ℕ) : digitsToNat (natDigits n) = n := by
  induction n using Nat.strong_induction_on with
  | _ n ih =>
    rw [natDigits_unfold]
    by_cases h10 : n < 10
    · simp [h10, digitsToNat, digitChar_toNat h10]
    · rw [if_neg h10]
      have hdiv : n / 10 < n := Nat.div_lt_self (by omega) (by omega)
      simp only [digitsToNat, List.foldl_append, List.foldl_cons, List.foldl_nil]
      have hmod : (digitChar (n % 10)).toNat = 48 + n % 10 :=
        digitChar_toNat (Nat.mod_lt _ (by omega))
      rw [show (natDigits (n / 10)).foldl (fun a c => a * 10 + (c.toNat - 48)) 0
          = digitsToNat (natDigits (n / 10)) from rfl, ih (n / 10) hdiv, hmod]
      omega

theorem natDigits_head_zero (n : ℕ) (h : (natDigits n).head? = some '0') : n = 0 := by
  induction n using Nat.strong_induction_on with
  | _ n ih =>
    rw [natDigits_unfold] at h
    by_cases h10 : n < 10
    · rw [if_pos h10] at h
      simp only [List.head?_cons, Option.some.injEq] at h
      exact digitChar_eq_zero h10 h
    · rw [if_neg h10] at h
      obtain ⟨c, t, hct⟩ := List.exists_cons_of_ne_nil (natDigits_ne_nil (n / 10))
      rw [hct] at h
      simp only [List.cons_append, List.head?_cons, Option.some.injEq] at h
      have : n / 10 = 0 := by
        apply ih (n / 10) (Nat.div_lt_self (by omega) (by omega))
        rw [hct, h]
        rfl
      omega

/-- The integer-part check of the JSON number grammar accepts rendered
digits: they are nonempty and have no leading zero. -/
theorem natDigits_check (n : ℕ) :
    ((natDigits n).isEmpty || !noLeadZero (natDigits n)) = false := by
  match hds : natDigits n with
  | [] => exact absurd hds (natDigits_ne_nil n)
  | [c] => rfl
  | c :: x :: xs =>
    simp only [List.isEmpty_cons, noLeadZero, Bool.not_not, Bool.false_or]
    have hne : c ≠ '0' := by
      intro h0
      have : n = 0 := natDigits_head_zero n (by rw [hds, h0]; rfl)
      rw [this] at hds
      rw [show natDigits 0 = ['0'] from rfl] at hds
      simp at hds
    simpa using hne

theorem natDigits_len_le : ∀ (k n : ℕ), n < 10 ^ k → 1 ≤ k → (natDigits n).length ≤ k := by
  intro k
  induction k with
  | zero => omega
  | succ k ih =>
    intro n hn _
    rw [natDigits_unfold]
    by_cases h10 : n < 10
    · simp [h10]
    · rw [if_neg h10]
      have hk1 : 1 ≤ k := by
        by_contra hk
        have : k = 0 := by omega
        subst this
        simp at hn
        omega
      have hdivk : n / 10 < 10 ^ k := by
        rw [Nat.div_lt_iff_lt_mul (by omega)]
        calc n < 10 ^ (k + 1) := hn
        _ = 10 ^ k * 10 := by ring
      have := ih (n / 10) hdivk hk1
      simp only [List.length_append, List.length_cons, List.length_nil]
      omega

theorem digitsToNat_replicate_zero (j : ℕ) (ds : List Char) :
    digitsToNat (List.replicate j '0' ++ ds) = digitsToNat ds := by
  induction j with
  | zero => rfl
  | succ j ih =>
    simpa [List.replicate_succ, digitsToNat] using ih

theorem digitsToNat_padDigits (k m : ℕ) : digitsToNat (padDigits k m) = m := by
  rw [padDigits, digitsToNat_replicate_zero, digitsToNat_natDigits]

theorem padDigits_length {k m : ℕ} (hm : m < 10 ^ k) (hk : 1 ≤ k) :
    (padDigits k m).length = k := by
  have := natDigits_len_le k m hm hk
  simp only [padDigits, List.length_append, List.length_replicate]
  omega

theorem padDigits_digits (k m : ℕ) : ∀ c ∈ padDigits k m, isDigitC c = true := by
  intro c hc
  rw [padDigits, List.mem_append] at hc
  rcases hc with hc | hc
  · rw [List.eq_of_mem_replicate hc]
    decide
  · exact natDigits_digits m c hc

/-! ### Digit-run parsing lemmas -/

theorem numDelim_head {c : Char} {t : List Char} (h : numDelim (c :: t) = true) :
    isDigitC c = false ∧ c ≠ '.' ∧ c ≠ 'e' ∧ c ≠ 'E' := by
  have hfold : isDigitC c = false ∧ (c == '.') = false ∧ (c == 'e') = false
      ∧ (c == 'E') = false := by
    revert h
    simp only [numDelim, Bool.not_eq_true']
    cases isDigitC c <;> cases c == '.' <;> cases c == 'e' <;> cases c == 'E' <;>
      simp
  obtain ⟨h1, h2, h3, h4⟩ := hfold
  exact ⟨h1, beq_eq_false_iff_ne.mp h2, beq_eq_false_iff_ne.mp h3,
    beq_eq_false_iff_ne.mp h4⟩

theorem takeDigits_cons_not {c : Char} {t : List Char} (h : isDigitC c = false) :
    takeDigits (c :: t) = ([], c :: t) := by
  rw [takeDigits.eq_def]
  simp [h]

theorem takeDigits_stop {cs : List Char} (h : numDelim cs = true) :
    takeDigits cs = ([], cs) := by
  cases cs with
  | nil => rfl
  | cons c t => exact takeDigits_cons_not (numDelim_head h).1

theorem takeDigits_run : ∀ (ds : List Char), (∀ c ∈ ds, isDigitC c = true) →
    ∀ (rest : List Char), takeDigits rest = ([], rest) →
      takeDigits (ds ++ rest) = (ds, rest)
  | [], _, rest, hrest => by simpa using hrest
  | c :: t, hds, rest, hrest => by
    have ih := takeDigits_run t (fun x hx => hds x (List.mem_cons_of_mem c hx)) rest hrest
    simp [takeDigits, hds c (List.mem_cons_self c t), ih]

/-! ### Number codec round trip -/

theorem digit_ne_chars {c : Char} (h : isDigitC c = true) :
    c ≠ '-' ∧ c ≠ '.' ∧ c ≠ 'e' ∧ c ≠ 'E' := by
  refine ⟨?_, ?_, ?_, ?_⟩ <;> rintro rfl <;> exact absurd h (by decide)

theorem natDigits_cons (n : ℕ) :
    ∃ c t, natDigits n = c :: t ∧ isDigitC c = true := by
  match h : natDigits n with
  | [] => exact absurd h (natDigits_ne_nil n)
  | c :: t => exact ⟨c, t, rfl, natDigits_digits n c (h ▸ List.mem_cons_self ..)⟩

theorem decScaled_zero_exp (neg : Bool) (M fl : ℕ) :
    decScaled neg M fl 0 = mkRat (if neg then -(M : ℤ) else (M : ℤ)) (10 ^ fl) := by
  simp [decScaled]

theorem cast_div_mul (q : ℚ) (k : ℕ) (hq : q.den ∣ 10 ^ k) :
    ((q.num.natAbs * 10 ^ k / q.den : ℕ) : ℚ) * (q.den : ℚ) = (q.num.natAbs : ℚ) * 10 ^ k := by
  have hmd : (q.num.natAbs * 10 ^ k / q.den) * q.den = q.num.natAbs * 10 ^ k :=
    Nat.div_mul_cancel (Dvd.dvd.mul_left hq _)
  have := congrArg (Nat.cast : ℕ → ℚ) hmd
  push_cast at this
  exact this

theorem q_mul_den (q : ℚ) : q * (q.den : ℚ) = (q.num : ℚ) := by
  have hd : (q.den : ℚ) ≠ 0 := by exact_mod_cast q.den_nz
  nth_rewrite 1 [← Rat.num_div_den q]
  exact div_mul_cancel₀ _ hd

theorem mkRat_render_pos (q : ℚ) (k : ℕ) (hq : q.den ∣ 10 ^ k) (hpos : ¬ q.num < 0) :
    mkRat ((q.num.natAbs * 10 ^ k / q.den : ℕ) : ℤ) (10 ^ k) = q := by
  have hd : (q.den : ℚ) ≠ 0 := by exact_mod_cast q.den_nz
  have h10 : ((10 ^ k : ℕ) : ℚ) ≠ 0 := by
    exact_mod_cast pow_ne_zero k (by norm_num : (10 : ℕ) ≠ 0)
  rw [Rat.mkRat_eq_div, div_eq_iff h10]
  apply mul_right_cancel₀ hd
  rw [Int.cast_natCast, cast_div_mul q k hq]
  have hnum : (q.num.natAbs : ℚ) = (q.num : ℚ) := by
    have h1 : (q.num.natAbs : ℤ) = q.num := by omega
    calc ((q.num.natAbs : ℕ) : ℚ) = (((q.num.natAbs : ℕ) : ℤ) : ℚ) := by
          rw [Int.cast_natCast]
    _ = (q.num : ℚ) := by rw [h1]
  rw [hnum, ← q_mul_den q, Nat.cast_pow]
  push_cast
  ring

theorem mkRat_render_neg (q : ℚ) (k : ℕ) (hq : q.den ∣ 10 ^ k) (hneg : q.num < 0) :
    mkRat (-((q.num.natAbs * 10 ^ k / q.den : ℕ) : ℤ)) (10 ^ k) = q := by
  have hd : (q.den : ℚ) ≠ 0 := by exact_mod_cast q.den_nz
  have h10 : ((10 ^ k : ℕ) : ℚ) ≠ 0 := by
    exact_mod_cast pow_ne_zero k (by norm_num : (10 : ℕ) ≠ 0)
  rw [Rat.mkRat_eq_div, div_eq_iff h10]
  apply mul_right_cancel₀ hd
  rw [Int.cast_neg, Int.cast_natCast, neg_mul, cast_div_mul q k hq]
  have hnum : (q.num.natAbs : ℚ) = -(q.num : ℚ) := by
    have h1 : (q.num.natAbs : ℤ) = -q.num := by omega
    calc ((q.num.natAbs : ℕ) : ℚ) = (((q.num.natAbs : ℕ) : ℤ) : ℚ) := by
          rw [Int.cast_natCast]
    _ = -(q.num : ℚ) := by rw [h1, Int.cast_neg]
  rw [hnum, ← q_mul_den q, Nat.cast_pow]
  push_cast
  ring

theorem digitsToNat_append (a b : List Char) :
    digitsToNat (a ++ b) = digitsToNat a * 10 ^ b.length + digitsToNat b := by
  simp only [digitsToNat, List.foldl_append]
  exact digitsToNat_foldl_acc b _

theorem mkRat_pow_cancel (a : ℤ) (c : ℕ) (hc : c ≠ 0) :
    mkRat (a * (c : ℤ)) c = mkRat a 1 := by
  have hcq : (c : ℚ) ≠ 0 := by exact_mod_cast hc
  rw [Rat.mkRat_eq_div, Rat.mkRat_eq_div]
  push_cast
  rw [mul_div_assoc, div_self hcq, mul_one, div_one]

theorem parseNumTail_delim (neg : Bool) (ids fds : List Char) (rest : List Char)
    (hr : numDelim rest = true) :
    parseNumTail neg ids fds rest
      = some (decScaled neg (digitsToNat (ids ++ fds)) fds.length 0, rest) := by
  match rest, hr with
  | [], _ => simp [parseNumTail]
  | c :: t, hr =>
    obtain ⟨hd, hdot, he, hE⟩ := numDelim_head hr
    simp [parseNumTail, he, hE]

theorem parseNum_int (neg : Bool) (ip : ℕ) (rest : List Char) (hr : numDelim rest = true) :
    parseNum ((if neg then ['-'] else []) ++ (natDigits ip ++ rest))
      = some (decScaled neg ip 0 0, rest) := by
  obtain ⟨c0, t0, h0, hc0⟩ := natDigits_cons ip
  obtain ⟨hminus, _, _, _⟩ := digit_ne_chars hc0
  have htd : takeDigits (natDigits ip ++ rest) = (natDigits ip, rest) :=
    takeDigits_run _ (natDigits_digits ip) _ (takeDigits_stop hr)
  have hchk := natDigits_check ip
  have htail := parseNumTail_delim neg (natDigits ip) [] rest hr
  rw [List.append_nil, digitsToNat_natDigits, List.length_nil] at htail
  cases neg with
  | true =>
    show parseNum ('-' :: (natDigits ip ++ rest)) = _
    simp only [parseNum, htd, hchk, Bool.false_eq_true, if_false]
    cases rest with
    | nil => simpa using htail
    | cons c t =>
      obtain ⟨hd, hdot, he, hE⟩ := numDelim_head hr
      simpa [hdot] using htail
  | false =>
    show parseNum (natDigits ip ++ rest) = _
    have harg : natDigits ip ++ rest = c0 :: (t0 ++ rest) := by rw [h0]; rfl
    have htd' : takeDigits (c0 :: (t0 ++ rest)) = (natDigits ip, rest) := harg ▸ htd
    rw [harg]
    simp only [parseNum]
    rw [show (match c0 :: (t0 ++ rest) with
      | '-' :: r => (true, r)
      | _ => (false, c0 :: (t0 ++ rest))) = (false, c0 :: (t0 ++ rest)) from by simp [hminus]]
    simp only [htd', hchk, Bool.false_eq_true, if_false]
    cases rest with
    | nil => simpa using htail
    | cons c t =>
      obtain ⟨hd, hdot, he, hE⟩ := numDelim_head hr
      simpa [hdot] using htail

theorem parseNum_frac (neg : Bool) (ip fp k : ℕ) (hfp : fp < 10 ^ k)
    (hk : 1 ≤ k) (rest : List Char) (hr : numDelim rest = true) :
    parseNum ((if neg then ['-'] else []) ++ (natDigits ip ++ '.' :: (padDigits k fp ++ rest)))
      = some (decScaled neg (ip * 10 ^ k + fp) k 0, rest) := by
  obtain ⟨c0, t0, h0, hc0⟩ := natDigits_cons ip
  obtain ⟨hminus, _, _, _⟩ := digit_ne_chars hc0
  have htd : takeDigits (natDigits ip ++ '.' :: (padDigits k fp ++ rest))
      = (natDigits ip, '.' :: (padDigits k fp ++ rest)) :=
    takeDigits_run _ (natDigits_digits ip) _ (takeDigits_cons_not (by decide))
  have hchk := natDigits_check ip
  have htd2 : takeDigits (padDigits k fp ++ rest) = (padDigits k fp, rest) :=
    takeDigits_run _ (padDigits_digits k fp) _ (takeDigits_stop hr)
  have hlen : (padDigits k fp).length = k := padDigits_length hfp hk
  have hne : padDigits k fp ≠ [] := by
    intro h
    rw [h] at hlen
    simp at hlen
    omega
  have htail := parseNumTail_delim neg (natDigits ip) (padDigits k fp) rest hr
  rw [digitsToNat_append, digitsToNat_natDigits, digitsToNat_padDigits, hlen] at htail
  cases neg with
  | true =>
    show parseNum ('-' :: (natDigits ip ++ '.' :: (padDigits k fp ++ rest))) = _
    simp only [parseNum, htd, hchk, Bool.false_eq_true, if_false, htd2]
    simp [hne, htail]
  | false =>
    show parseNum (natDigits ip ++ '.' :: (padDigits k fp ++ rest)) = _
    have harg : natDigits ip ++ '.' :: (padDigits k fp ++ rest)
        = c0 :: (t0 ++ '.' :: (padDigits k fp ++ rest)) := by rw [h0]; rfl
    have htd' : takeDigits (c0 :: (t0 ++ '.' :: (padDigits k fp ++ rest)))
        = (natDigits ip, '.' :: (padDigits k fp ++ rest)) := harg ▸ htd
    rw [harg]
    simp only [parseNum]
    rw [show (match c0 :: (t0 ++ '.' :: (padDigits k fp ++ rest)) with
      | '-' :: r => (true, r)
      | _ => (false, c0 :: (t0 ++ '.' :: (padDigits k fp ++ rest))))
      = (false, c0 :: (t0 ++ '.' :: (padDigits k fp ++ rest))) from by simp [hminus]]
    simp only [htd', hchk, Bool.false_eq_true, if_false, htd2]
    simp [hne, htail]

theorem decScaled_m_val (q : ℚ) (k : ℕ) (hq : q.den ∣ 10 ^ k) (neg : Bool)
    (hneg : neg = true ↔ q.num < 0) :
    decScaled neg (q.num.natAbs * 10 ^ k / q.den) k 0 = q := by
  cases neg with
  | true =>
    rw [show decScaled true (q.num.natAbs * 10 ^ k / q.den) k 0
        = mkRat (-((q.num.natAbs * 10 ^ k / q.den : ℕ) : ℤ)) (10 ^ k) from by simp [decScaled]]
    exact mkRat_render_neg q k hq (hneg.mp rfl)
  | false =>
    rw [show decScaled false (q.num.natAbs * 10 ^ k / q.den) k 0
        = mkRat ((q.num.natAbs * 10 ^ k / q.den : ℕ) : ℤ) (10 ^ k) from by simp [decScaled]]
    exact mkRat_render_pos q k hq (fun hp => absurd (hneg.mpr hp) (by decide))

theorem decScaled_ip_val (q : ℚ) (k : ℕ) (hq : q.den ∣ 10 ^ k)
    (hfp : (q.num.natAbs * 10 ^ k / q.den) % 10 ^ k = 0) (neg : Bool)
    (hneg : neg = true ↔ q.num < 0) :
    decScaled neg (q.num.natAbs * 10 ^ k / q.den / 10 ^ k) 0 0 = q := by
  have hm : 10 ^ k * (q.num.natAbs * 10 ^ k / q.den / 10 ^ k)
      = q.num.natAbs * 10 ^ k / q.den := by
    have := Nat.div_add_mod (q.num.natAbs * 10 ^ k / q.den) (10 ^ k)
    omega
  have hpow : (10 ^ k : ℕ) ≠ 0 := by positivity
  cases neg with
  | true =>
    rw [show decScaled true (q.num.natAbs * 10 ^ k / q.den / 10 ^ k) 0 0
        = mkRat (-((q.num.natAbs * 10 ^ k / q.den / 10 ^ k : ℕ) : ℤ)) 1 from by simp [decScaled]]
    rw [← mkRat_pow_cancel _ _ hpow]
    rw [show -((q.num.natAbs * 10 ^ k / q.den / 10 ^ k : ℕ) : ℤ) * ((10 ^ k : ℕ) : ℤ)
        = -((10 ^ k * (q.num.natAbs * 10 ^ k / q.den / 10 ^ k) : ℕ) : ℤ) from by push_cast; ring]
    rw [hm]
    exact mkRat_render_neg q k hq (hneg.mp rfl)
  | false =>
    rw [show decScaled false (q.num.natAbs * 10 ^ k / q.den / 10 ^ k) 0 0
        = mkRat ((q.num.natAbs * 10 ^ k / q.den / 10 ^ k : ℕ) : ℤ) 1 from by simp [decScaled]]
    rw [← mkRat_pow_cancel _ _ hpow]
    rw [show ((q.num.natAbs * 10 ^ k / q.den / 10 ^ k : ℕ) : ℤ) * ((10 ^ k : ℕ) : ℤ)
        = ((10 ^ k * (q.num.natAbs * 10 ^ k / q.den / 10 ^ k : ℕ) : ℕ) : ℤ) from by push_cast; ring]
    rw [hm]
    exact mkRat_render_pos q k hq (fun hp => absurd (hneg.mpr hp) (by decide))

/-- The number codec round trip: parsing a rendered decimal recovers the
rational exactly, whenever the remainder cannot extend the number. -/
theorem parseNum_render (q : ℚ) (hq : q.den ∣ 10 ^ decExp q.den) (rest : List Char)
    (hr : numDelim rest = true) :
    parseNum (renderNumL q ++ rest) = some (q, rest) := by
  have hpow : 0 < 10 ^ decExp q.den := by positivity
  by_cases hfp : (q.num.natAbs * 10 ^ decExp q.den / q.den) % 10 ^ decExp q.den = 0
  · by_cases hneg : q.num < 0
    · have hrender : renderNumL q ++ rest
          = (if (true : Bool) then ['-'] else [])
            ++ (natDigits (q.num.natAbs * 10 ^ decExp q.den / q.den / 10 ^ decExp q.den)
              ++ rest) := by
        simp [renderNumL, hfp, hneg]
      rw [hrender, parseNum_int true _ rest hr,
        decScaled_ip_val q _ hq hfp true (by simp [hneg])]
    · have hrender : renderNumL q ++ rest
          = (if (false : Bool) then ['-'] else [])
            ++ (natDigits (q.num.natAbs * 10 ^ decExp q.den / q.den / 10 ^ decExp q.den)
              ++ rest) := by
        simp [renderNumL, hfp, hneg]
      rw [hrender, parseNum_int false _ rest hr,
        decScaled_ip_val q _ hq hfp false (by simp [hneg])]
  · have hfplt : (q.num.natAbs * 10 ^ decExp q.den / q.den) % 10 ^ decExp q.den
        < 10 ^ decExp q.den := Nat.mod_lt _ hpow
    have hk : 1 ≤ decExp q.den := by
      by_contra hk0
      have : decExp q.den = 0 := by omega
      rw [this] at hfplt
      simp at hfplt
      exact hfp (by rw [this]; simpa using hfplt)
    by_cases hneg : q.num < 0
    · have hrender : renderNumL q ++ rest
          = (if (true : Bool) then ['-'] else [])
            ++ (natDigits (q.num.natAbs * 10 ^ decExp q.den / q.den / 10 ^ decExp q.den)
              ++ '.' :: (padDigits (decExp q.den)
                ((q.num.natAbs * 10 ^ decExp q.den / q.den) % 10 ^ decExp q.den) ++ rest)) := by
        simp [renderNumL, hfp, hneg]
      rw [hrender, parseNum_frac true _ _ _ hfplt hk rest hr]
      rw [show (q.num.natAbs * 10 ^ decExp q.den / q.den / 10 ^ decExp q.den) * 10 ^ decExp q.den
            + (q.num.natAbs * 10 ^ decExp q.den / q.den) % 10 ^ decExp q.den
          = q.num.natAbs * 10 ^ decExp q.den / q.den from by
        have := Nat.div_add_mod (q.num.natAbs * 10 ^ decExp q.den / q.den) (10 ^ decExp q.den)
        rw [Nat.mul_comm (q.num.natAbs * 10 ^ decExp q.den / q.den / 10 ^ decExp q.den)
          (10 ^ decExp q.den)]
        omega]
      rw [decScaled_m_val q _ hq true (by simp [hneg])]
    · have hrender : renderNumL q ++ rest
          = (if (false : Bool) then ['-'] else [])
            ++ (natDigits (q.num.natAbs * 10 ^ decExp q.den / q.den / 10 ^ decExp q.den)
              ++ '.' :: (padDigits (decExp q.den)
                ((q.num.natAbs * 10 ^ decExp q.den / q.den) % 10 ^ decExp q.den) ++ rest)) := by
        simp [renderNumL, hfp, hneg]
      rw [hrender, parseNum_frac false _ _ _ hfplt hk rest hr]
      rw [show (q.num.natAbs * 10 ^ decExp q.den / q.den / 10 ^ decExp q.den) * 10 ^ decExp q.den
            + (q.num.natAbs * 10 ^ decExp q.den / q.den) % 10 ^ decExp q.den
          = q.num.natAbs * 10 ^ decExp q.den / q.den from by
        have := Nat.div_add_mod (q.num.natAbs * 10 ^ decExp q.den / q.den) (10 ^ decExp q.den)
        rw [Nat.mul_comm (q.num.natAbs * 10 ^ decExp q.den / q.den / 10 ^ decExp q.den)
          (10 ^ decExp q.den)]
        omega]
      rw [decScaled_m_val q _ hq false (by simp [hneg])]

/-! ### String codec round trip -/

theorem hexValC_hexDigitChar (d : ℕ) (h : d < 16) : hexValC (hexDigitChar d) = some d := by
  interval_cases d <;> decide

/-- Parsing one escaped character undoes the escaping. -/
theorem parseStrAux_escape (c : Char) (acc rest : List Char) :
    parseStrAux acc (escapeCharL c ++ rest) = parseStrAux (c :: acc) rest := by
  unfold escapeCharL
  split_ifs with h1 h2 h3 h4 h5 h6 h7 h8
  · subst h1; rfl
  · subst h2; rfl
  · subst h3; rfl
  · subst h4; rfl
  · subst h5; rfl
  · subst h6; rfl
  · subst h7; rfl
  · have ha : c.toNat / 16 < 16 := by omega
    have hb : c.toNat % 16 < 16 := by omega
    have harith : c.toNat / 16 * 16 + c.toNat % 16 = c.toNat := by omega
    simp only [List.cons_append]
    simp [parseStrAux, hex4, hexValC_hexDigitChar _ ha, hexValC_hexDigitChar _ hb,
      show hexValC '0' = some 0 from rfl, Option.bind, harith, Char.ofNat_toNat]
  · simp only [List.cons_append, List.nil_append]
    rw [parseStrAux.eq_def]
    simp [h1, h2, h8]

/-- Parsing an escaped run stops exactly at the closing quote. -/
theorem parseStrAux_flatMap : ∀ (cs acc rest : List Char),
    parseStrAux acc (cs.flatMap escapeCharL ++ '"' :: rest)
      = some (String.mk (acc.reverse ++ cs), rest)
  | [], acc, rest => by
    show parseStrAux acc ('"' :: rest) = _
    rw [parseStrAux.eq_def]
    simp
  | c :: cs, acc, rest => by
    rw [List.flatMap_cons, List.append_assoc, parseStrAux_escape c acc _,
      parseStrAux_flatMap cs (c :: acc) rest]
    simp

/-- The string codec round trip. -/
theorem parseStr_render (s : String) (rest : List Char) :
    parseStrAux [] (s.data.flatMap escapeCharL ++ '"' :: rest) = some (s, rest) := by
  rw [parseStrAux_flatMap]
  rfl

/-! ### Structural codec round trip -/

theorem skipWsL_not {c : Char} (t : List Char) (h : isWsC c = false) :
    skipWsL (c :: t) = c :: t := by
  simp [skipWsL, h]

theorem scan_start_props {c : Char} (h : (c == '-' || isDigitC c) = true) :
    isWsC c = false ∧ c ≠ 'n' ∧ c ≠ 't' ∧ c ≠ 'f' ∧ c ≠ '"' ∧ c ≠ '[' ∧ c ≠ '\x7b' ∧
      c ≠ ']' ∧ c ≠ '\x7d' := by
  have hne : ∀ x : Char, (x == '-' || isDigitC x) = false → c ≠ x := by
    intro x hx he
    subst he
    rw [hx] at h
    cases h
  refine ⟨?_, hne 'n' (by decide), hne 't' (by decide), hne 'f' (by decide),
    hne '"' (by decide), hne '[' (by decide), hne '\x7b' (by decide),
    hne ']' (by decide), hne '\x7d' (by decide)⟩
  simp only [isWsC, Bool.or_eq_false_iff, beq_eq_false_iff_ne]
  exact ⟨⟨⟨hne ' ' (by decide), hne '\n' (by decide)⟩, hne '\t' (by decide)⟩,
    hne '\x0d' (by decide)⟩

theorem renderNumL_head (q : ℚ) :
    ∃ c t, renderNumL q = c :: t ∧ (c == '-' || isDigitC c) = true := by
  by_cases hneg : q.num < 0
  · refine ⟨'-', natDigits (q.num.natAbs * 10 ^ decExp q.den / q.den / 10 ^ decExp q.den)
      ++ (if (q.num.natAbs * 10 ^ decExp q.den / q.den) % 10 ^ decExp q.den = 0 then []
        else '.' :: padDigits (decExp q.den)
          ((q.num.natAbs * 10 ^ decExp q.den / q.den) % 10 ^ decExp q.den)), ?_, by decide⟩
    simp [renderNumL, hneg]
  · obtain ⟨c0, t0, h0, hc0⟩ :=
      natDigits_cons (q.num.natAbs * 10 ^ decExp q.den / q.den / 10 ^ decExp q.den)
    refine ⟨c0, t0 ++ (if (q.num.natAbs * 10 ^ decExp q.den / q.den) % 10 ^ decExp q.den = 0
      then [] else '.' :: padDigits (decExp q.den)
        ((q.num.natAbs * 10 ^ decExp q.den / q.den) % 10 ^ decExp q.den)), ?_, by simp [hc0]⟩
    simp [renderNumL, hneg, h0]

/-- Every rendered value begins with a non-whitespace character that closes
neither an array nor an object. -/
theorem renderL_head (j : JValue) :
    ∃ c t, renderL j = c :: t ∧ isWsC c = false ∧ c ≠ ']' ∧ c ≠ '\x7d' := by
  cases j with
  | jNum q =>
    obtain ⟨c, t, hct, hc⟩ := renderNumL_head q
    obtain ⟨hws, _, _, _, _, _, _, hbr, hbc⟩ := scan_start_props hc
    exact ⟨c, t, by simp [renderL, hct], hws, hbr, hbc⟩
  | jBool b => cases b <;> exact ⟨_, _, rfl, rfl, by decide, by decide⟩
  | jNull => exact ⟨'n', _, rfl, rfl, by decide, by decide⟩
  | jStr s => exact ⟨'"', _, rfl, rfl, by decide, by decide⟩
  | jArr es => exact ⟨'[', _, rfl, rfl, by decide, by decide⟩
  | jObj fs => exact ⟨'\x7b', _, rfl, rfl, by decide, by decide⟩

theorem parseVal_num (q : ℚ) (hq : q.den ∣ 10 ^ decExp q.den) (f : ℕ) (rest : List Char)
    (hr : numDelim rest = true) :
    parseVal (f + 1) (renderNumL q ++ rest) = some (.jNum q, rest) := by
  obtain ⟨c, t, hct, hc⟩ := renderNumL_head q
  obtain ⟨hws, hn, ht, hf, hquo, hbk, hbc, _, _⟩ := scan_start_props hc
  have harg : renderNumL q ++ rest = c :: (t ++ rest) := by rw [hct]; rfl
  have hpn : parseNum (c :: (t ++ rest)) = some (q, rest) := by
    rw [← harg]
    exact parseNum_render q hq rest hr
  rw [harg]
  simp only [parseVal]
  rw [skipWsL_not _ hws]
  simp [hn, ht, hf, hquo, hbk, hbc, hc, hpn]

theorem renderElemsL_cons_ex (e : JValue) (es : List JValue) :
    ∃ X, renderElemsL (e :: es) = renderL e ++ X := by
  cases es with
  | nil => exact ⟨[], by simp [renderElemsL]⟩
  | cons y ys => exact ⟨',' :: renderElemsL (y :: ys), rfl⟩

theorem parseVal_arr (e : JValue) (es : List JValue) (f : ℕ) (rest : List Char) :
    parseVal (f + 1) ('[' :: (renderElemsL (e :: es) ++ ']' :: rest))
      = (parseElems f (renderElemsL (e :: es) ++ ']' :: rest)).map
          (fun p => (.jArr p.1, p.2)) := by
  obtain ⟨X, hX⟩ := renderElemsL_cons_ex e es
  obtain ⟨c, t, hct, hws, hbr, _⟩ := renderL_head e
  have hshape : renderElemsL (e :: es) ++ ']' :: rest = c :: (t ++ (X ++ ']' :: rest)) := by
    rw [hX, hct]
    simp
  rw [hshape]
  simp only [parseVal]
  rw [show skipWsL ('[' :: (c :: (t ++ (X ++ ']' :: rest))))
      = '[' :: (c :: (t ++ (X ++ ']' :: rest))) from skipWsL_not _ (by decide)]
  show (match skipWsL (c :: (t ++ (X ++ ']' :: rest))) with
    | ']' :: r1 => some (JValue.jArr [], r1)
    | cs1 => (parseElems f cs1).map
        (fun p : List JValue × List Char => (JValue.jArr p.1, p.2))) = _
  rw [skipWsL_not _ hws]
  simp [hbr]

theorem renderFieldsL_cons_ex (k : String) (v : JValue) (fs : List (String × JValue)) :
    ∃ X, renderFieldsL ((k, v) :: fs) = renderStrL k ++ ':' :: (renderL v ++ X) := by
  cases fs with
  | nil => exact ⟨[], by simp [renderFieldsL]⟩
  | cons g gs => exact ⟨',' :: renderFieldsL (g :: gs), by simp [renderFieldsL]⟩

theorem parseVal_obj (k : String) (v : JValue) (fs : List (String × JValue))
    (f : ℕ) (rest : List Char) :
    parseVal (f + 1) ('\x7b' :: (renderFieldsL ((k, v) :: fs) ++ '\x7d' :: rest))
      = (parseFields f (renderFieldsL ((k, v) :: fs) ++ '\x7d' :: rest)).map
          (fun p => (.jObj p.1, p.2)) := by
  obtain ⟨X, hX⟩ := renderFieldsL_cons_ex k v fs
  have hshape : renderFieldsL ((k, v) :: fs) ++ '\x7d' :: rest
      = '"' :: (k.data.flatMap escapeCharL
        ++ ('"' :: (':' :: (renderL v ++ X ++ '\x7d' :: rest)))) := by
    rw [hX]
    simp [renderStrL]
  rw [hshape]
  simp only [parseVal]
  rw [show skipWsL ('\x7b' :: ('"' :: (k.data.flatMap escapeCharL
      ++ ('"' :: (':' :: (renderL v ++ X ++ '\x7d' :: rest))))))
      = '\x7b' :: ('"' :: (k.data.flatMap escapeCharL
      ++ ('"' :: (':' :: (renderL v ++ X ++ '\x7d' :: rest))))) from skipWsL_not _ (by decide)]
  rfl

mutual
theorem rt_val : ∀ (j : JValue) (fuel : ℕ) (rest : List Char),
    jDecB j = true → (renderL j).length < fuel → numDelim rest = true →
    parseVal fuel (renderL j ++ rest) = some (j, rest)
  | .jNull, fuel, rest, _, hf, _ => by
    cases fuel with
    | zero => exact absurd hf (Nat.not_lt_zero _)
    | succ f => rfl
  | .jBool b, fuel, rest, _, hf, _ => by
    cases fuel with
    | zero => exact absurd hf (Nat.not_lt_zero _)
    | succ f => cases b <;> rfl
  | .jNum q, fuel, rest, hdec, hf, hr => by
    cases fuel with
    | zero => exact absurd hf (Nat.not_lt_zero _)
    | succ f =>
      have hq : q.den ∣ 10 ^ decExp q.den :=
        of_decide_eq_true (by simpa [jDecB, isDecRat] using hdec)
      exact parseVal_num q hq f rest hr
  | .jStr s, fuel, rest, _, hf, _ => by
    cases fuel with
    | zero => exact absurd hf (Nat.not_lt_zero _)
    | succ f =>
      have harg : renderL (.jStr s) ++ rest
          = '"' :: (s.data.flatMap escapeCharL ++ '"' :: rest) := by
        simp [renderL, renderStrL]
      rw [harg]
      show (parseStrAux [] (s.data.flatMap escapeCharL ++ '"' :: rest)).map
        (fun p : String × List Char => (JValue.jStr p.1, p.2)) = _
      rw [parseStr_render]
      rfl
  | .jArr [], fuel, rest, _, hf, _ => by
    cases fuel with
    | zero => exact absurd hf (Nat.not_lt_zero _)
    | succ f => rfl
  | .jArr (e :: es), fuel, rest, hdec, hf, hr => by
    cases fuel with
    | zero => exact absurd hf (Nat.not_lt_zero _)
    | succ f =>
      have hsplit : jDecB e = true ∧ jDecElemsB es = true := by
        simpa [jDecB, jDecElemsB, Bool.and_eq_true] using hdec
      have hflen : (renderElemsL (e :: es)).length + 1 < f := by
        have hlen : (renderL (.jArr (e :: es))).length
            = (renderElemsL (e :: es)).length + 2 := by
          simp [renderL]
        omega
      have key := rt_elems e es f rest hsplit.1 hsplit.2 hflen
      have harr : renderL (.jArr (e :: es)) ++ rest
          = '[' :: (renderElemsL (e :: es) ++ ']' :: rest) := by
        simp [renderL]
      rw [harr, parseVal_arr e es f rest, key]
      rfl
  | .jObj [], fuel, rest, _, hf, _ => by
    cases fuel with
    | zero => exact absurd hf (Nat.not_lt_zero _)
    | succ f => rfl
  | .jObj ((k, v) :: fs), fuel, rest, hdec, hf, hr => by
    cases fuel with
    | zero => exact absurd hf (Nat.not_lt_zero _)
    | succ f =>
      have hsplit : jDecB v = true ∧ jDecFieldsB fs = true := by
        simpa [jDecB, jDecFieldsB, Bool.and_eq_true] using hdec
      have hflen : (renderFieldsL ((k, v) :: fs)).length + 1 < f := by
        have hlen : (renderL (.jObj ((k, v) :: fs))).length
            = (renderFieldsL ((k, v) :: fs)).length + 2 := by
          simp [renderL]
        omega
      have key := rt_fields k v fs f rest hsplit.1 hsplit.2 hflen
      have hobj : renderL (.jObj ((k, v) :: fs)) ++ rest
          = '\x7b' :: (renderFieldsL ((k, v) :: fs) ++ '\x7d' :: rest) := by
        simp [renderL]
      rw [hobj, parseVal_obj k v fs f rest, key]
      rfl
termination_by j _ _ _ _ _ => sizeOf j

theorem rt_elems : ∀ (e : JValue) (es : List JValue) (fuel : ℕ) (rest : List Char),
    jDecB e = true → jDecElemsB es = true →
    (renderElemsL (e :: es)).length + 1 < fuel →
    parseElems fuel (renderElemsL (e :: es) ++ ']' :: rest) = some (e :: es, rest)
  | e, [], fuel, rest, hde, _, hf => by
    cases fuel with
    | zero => exact absurd hf (Nat.not_lt_zero _)
    | succ f =>
      have hfe : (renderL e).length < f := by
        have : renderElemsL [e] = renderL e := by simp [renderElemsL]
        rw [this] at hf
        omega
      have hv := rt_val e f (']' :: rest) hde hfe rfl
      have harg : renderElemsL [e] ++ ']' :: rest = renderL e ++ ']' :: rest := by
        simp [renderElemsL]
      rw [harg]
      simp [parseElems, hv, skipWsL, isWsC]
  | e, y :: ys, fuel, rest, hde, hdes, hf => by
    cases fuel with
    | zero => exact absurd hf (Nat.not_lt_zero _)
    | succ f =>
      have hsplit : jDecB y = true ∧ jDecElemsB ys = true := by
        simpa [jDecElemsB, Bool.and_eq_true] using hdes
      have hlen : (renderElemsL (e :: y :: ys)).length
          = (renderL e).length + 1 + (renderElemsL (y :: ys)).length := by
        simp [renderElemsL]
        omega
      have hfe : (renderL e).length < f := by omega
      have hfx : (renderElemsL (y :: ys)).length + 1 < f := by omega
      have hv := rt_val e f (',' :: (renderElemsL (y :: ys) ++ ']' :: rest)) hde hfe rfl
      have key := rt_elems y ys f rest hsplit.1 hsplit.2 hfx
      have harg : renderElemsL (e :: y :: ys) ++ ']' :: rest
          = renderL e ++ ',' :: (renderElemsL (y :: ys) ++ ']' :: rest) := by
        simp [renderElemsL]
      rw [harg]
      simp [parseElems, hv, skipWsL, isWsC, key]
termination_by e es _ _ _ _ _ => sizeOf e + sizeOf es

theorem rt_fields : ∀ (k : String) (v : JValue) (fs : List (String × JValue))
    (fuel : ℕ) (rest : List Char),
    jDecB v = true → jDecFieldsB fs = true →
    (renderFieldsL ((k, v) :: fs)).length + 1 < fuel →
    parseFields fuel (renderFieldsL ((k, v) :: fs) ++ '\x7d' :: rest)
      = some ((k, v) :: fs, rest)
  | k, v, [], fuel, rest, hdv, _, hf => by
    cases fuel with
    | zero => exact absurd hf (Nat.not_lt_zero _)
    | succ f =>
      have hfe : (renderL v).length < f := by
        have : (renderFieldsL [(k, v)]).length
            = (renderStrL k).length + 1 + (renderL v).length := by
          simp [renderFieldsL]
          omega
        omega
      have hv := rt_val v f ('\x7d' :: rest) hdv hfe rfl
      have harg : renderFieldsL [(k, v)] ++ '\x7d' :: rest
          = '"' :: (k.data.flatMap escapeCharL
            ++ '"' :: (':' :: (renderL v ++ '\x7d' :: rest))) := by
        simp [renderFieldsL, renderStrL]
      rw [harg]
      simp [parseFields, parseStr_render, hv, skipWsL, isWsC]
  | k, v, (gk, gv) :: gs, fuel, rest, hdv, hdfs, hf => by
    cases fuel with
    | zero => exact absurd hf (Nat.not_lt_zero _)
    | succ f =>
      have hsplit : jDecB gv = true ∧ jDecFieldsB gs = true := by
        simpa [jDecFieldsB, Bool.and_eq_true] using hdfs
      have hlen : (renderFieldsL ((k, v) :: (gk, gv) :: gs)).length
          = (renderStrL k).length + 1 + (renderL v).length + 1
            + (renderFieldsL ((gk, gv) :: gs)).length := by
        simp [renderFieldsL]
        omega
      have hfe : (renderL v).length < f := by omega
      have hfx : (renderFieldsL ((gk, gv) :: gs)).length + 1 < f := by omega
      have hv := rt_val v f (',' :: (renderFieldsL ((gk, gv) :: gs) ++ '\x7d' :: rest))
        hdv hfe rfl
      have key := rt_fields gk gv gs f rest hsplit.1 hsplit.2 hfx
      have harg : renderFieldsL ((k, v) :: (gk, gv) :: gs) ++ '\x7d' :: rest
          = '"' :: (k.data.flatMap escapeCharL
            ++ '"' :: (':' :: (renderL v
              ++ ',' :: (renderFieldsL ((gk, gv) :: gs) ++ '\x7d' :: rest)))) := by
        simp [renderFieldsL, renderStrL]
      rw [harg]
      simp [parseFields, parseStr_render, hv, skipWsL, isWsC, key]
termination_by k v fs _ _ _ _ _ => sizeOf v + sizeOf fs
end

/-- The full JSON parse of a rendered document recovers it exactly. -/
theorem jsonParse_render (j : JValue) (hdec : jDecB j = true) :
    jsonParse (String.mk (renderL j)) = some j := by
  have hv := rt_val j ((renderL j).length + 1) [] hdec (by omega) rfl
  rw [List.append_nil] at hv
  simp [jsonParse, hv, skipWsL]

theorem droppable_normalize {x : Value} (h : droppableB x = true) :
    jsonNormalize x = .vNull := by
  cases x <;> simp_all [droppableB, jsonNormalize]

theorem droppable_normFields {v : Value} (k : String) (fs : List (String × Value))
    (h : droppableB v = true) :
    normFields ((k, v) :: fs) = normFields fs := by
  cases v <;> simp_all [droppableB, normFields]

theorem kept_normFields {v : Value} (k : String) (fs : List (String × Value))
    (h : droppableB v = false) :
    normFields ((k, v) :: fs) = (k, jsonNormalize v) :: normFields fs := by
  cases v <;> simp_all [droppableB, normFields]

mutual
theorem enc_val : ∀ v : Value, bigintFreeB v = true →
    (droppableB v = true ∧ valueToJson v = .ok none) ∨
    (∃ j, droppableB v = false ∧ valueToJson v = .ok (some j) ∧
      jvalToValue j = jsonNormalize v ∧ (decRatsB v = true → jDecB j = true))
  | .vNull, _ => Or.inr ⟨.jNull, rfl, rfl, rfl, fun _ => rfl⟩
  | .vBool b, _ => Or.inr ⟨.jBool b, rfl, rfl, rfl, fun _ => rfl⟩
  | .vNum q, _ => Or.inr ⟨.jNum q, rfl, rfl, rfl, fun h => by
      simpa [decRatsB, jDecB] using h⟩
  | .vStr s, _ => Or.inr ⟨.jStr s, rfl, rfl, rfl, fun _ => rfl⟩
  | .vBigInt i, h => by simp [bigintFreeB] at h
  | .vUndef, _ => Or.inl ⟨rfl, rfl⟩
  | .vSym d, _ => Or.inl ⟨rfl, rfl⟩
  | .vFunc n, _ => Or.inl ⟨rfl, rfl⟩
  | .vArr xs, h => by
    obtain ⟨js, hjs, hval, hdec⟩ := enc_elems xs (by simpa [bigintFreeB] using h)
    refine Or.inr ⟨.jArr js, rfl, ?_, ?_, ?_⟩
    · simp [valueToJson, hjs, Except.map]
    · simp [jvalToValue, hval, jsonNormalize]
    · intro hd
      simp only [jDecB]
      exact hdec (by simpa [decRatsB] using hd)
  | .vObj fs, h => by
    obtain ⟨gs, hgs, hval, hdec⟩ := enc_fields fs (by simpa [bigintFreeB] using h)
    refine Or.inr ⟨.jObj gs, rfl, ?_, ?_, ?_⟩
    · simp [valueToJson, hgs, Except.map]
    · simp [jvalToValue, hval, jsonNormalize]
    · intro hd
      simp only [jDecB]
      exact hdec (by simpa [decRatsB] using hd)
termination_by v _ => sizeOf v

theorem enc_elems : ∀ xs : List Value, bigintFreeElems xs = true →
    ∃ js, elemsToJson xs = .ok js ∧ jvalElemsToValue js = normElems xs ∧
      (decRatsElems xs = true → jDecElemsB js = true)
  | [], _ => ⟨[], rfl, rfl, fun _ => rfl⟩
  | x :: xs, h => by
    have hx : bigintFreeB x = true ∧ bigintFreeElems xs = true := by
      simpa [bigintFreeElems, Bool.and_eq_true] using h
    obtain ⟨js, hjs, hval, hdec⟩ := enc_elems xs hx.2
    rcases enc_val x hx.1 with ⟨hdrop, hnone⟩ | ⟨j, hkeep, hj, hjv, hjd⟩
    · refine ⟨.jNull :: js, ?_, ?_, ?_⟩
      · simp [elemsToJson, hnone, hjs, bind, Except.bind]
      · simp [jvalElemsToValue, jvalToValue, hval, normElems, droppable_normalize hdrop]
      · intro hd
        simp only [jDecElemsB, jDecB, Bool.true_and]
        exact hdec (by
          have := (by simpa [decRatsElems, Bool.and_eq_true] using hd :
            decRatsB x = true ∧ decRatsElems xs = true)
          exact this.2)
    · refine ⟨j :: js, ?_, ?_, ?_⟩
      · simp [elemsToJson, hj, hjs, bind, Except.bind]
      · simp [jvalElemsToValue, normElems, hjv, hval]
      · intro hd
        have hd2 : decRatsB x = true ∧ decRatsElems xs = true := by
          simpa [decRatsElems, Bool.and_eq_true] using hd
        simp only [jDecElemsB, Bool.and_eq_true]
        exact ⟨hjd hd2.1, hdec hd2.2⟩
termination_by xs _ => sizeOf xs

theorem enc_fields : ∀ fs : List (String × Value), bigintFreeFields fs = true →
    ∃ gs, fieldsToJson fs = .ok gs ∧ jvalFieldsToValue gs = normFields fs ∧
      (decRatsFields fs = true → jDecFieldsB gs = true)
  | [], _ => ⟨[], rfl, rfl, fun _ => rfl⟩
  | (k, v) :: fs, h => by
    have hx : bigintFreeB v = true ∧ bigintFreeFields fs = true := by
      simpa [bigintFreeFields, Bool.and_eq_true] using h
    obtain ⟨gs, hgs, hval, hdec⟩ := enc_fields fs hx.2
    rcases enc_val v hx.1 with ⟨hdrop, hnone⟩ | ⟨j, hkeep, hj, hjv, hjd⟩
    · refine ⟨gs, ?_, ?_, ?_⟩
      · simp [fieldsToJson, hnone, hgs, bind, Except.bind]
      · rw [droppable_normFields k fs hdrop]
        exact hval
      · intro hd
        exact hdec (by
          have := (by simpa [decRatsFields, Bool.and_eq_true] using hd :
            decRatsB v = true ∧ decRatsFields fs = true)
          exact this.2)
    · refine ⟨(k, j) :: gs, ?_, ?_, ?_⟩
      · simp [fieldsToJson, hj, hgs, bind, Except.bind]
      · rw [kept_normFields k fs hkeep]
        simp [jvalFieldsToValue, hjv, hval]
      · intro hd
        have hd2 : decRatsB v = true ∧ decRatsFields fs = true := by
          simpa [decRatsFields, Bool.and_eq_true] using hd
        simp only [jDecFieldsB, Bool.and_eq_true]
        exact ⟨hjd hd2.1, hdec hd2.2⟩
termination_by fs _ => sizeOf fs
end

/-- Counterexample to C4 as stated: the object `{a: undefined}` has no
function-valued or symbol-keyed (indeed no function or symbol) member at
all, so the claim requires its encoding to decode back to a structurally
equal value — but `stringifyValue` encodes it as the empty object, which
decodes to `{}`, not `{a: undefined}`: undefined-valued members are also
dropped. -/
theorem stringify_roundtrip_cex :
    stringifyValue (.vObj [("a", .vUndef)]) = .ok (some "\x7b\x7d") ∧
    safeJsonParse "\x7b\x7d" .vNull = .vObj [] ∧
    mentionsFnOrSymB (.vObj [("a", .vUndef)]) = false ∧
    Value.vObj [] ≠ .vObj [("a", .vUndef)] :=
  ⟨rfl, rfl, rfl, by simp⟩

/-- C4 amended: for every plain object or array value containing no bigint
(`JSON.stringify` throws on those) and only decimal numbers (every encoded
platform float is one), `stringifyValue` produces valid structured-data text
that decodes back to the value's round-trip image `jsonNormalize`:
structural equality up to dropping undefined-, function- and symbol-valued
object members and encoding such array elements as null. -/
theorem stringify_parse_roundtrip (v : Value)
    (hcomp : isCompositeB v = true)
    (hbig : bigintFreeB v = true)
    (hdec : decRatsB v = true) :
    ∃ s j, stringifyValue v = .ok (some s) ∧ jsonParse s = some j ∧
      jvalToValue j = jsonNormalize v := by
  rcases enc_val v hbig with ⟨hdrop, _⟩ | ⟨j, _, hj, hjv, hjd⟩
  · cases v <;> simp_all [droppableB, isCompositeB]
  · refine ⟨String.mk (renderL j), j, ?_, jsonParse_render j (hjd hdec), hjv⟩
    cases v with
    | vArr xs => simp [stringifyValue, jsTypeof, hj]
    | vObj fs => simp [stringifyValue, jsTypeof, hj]
    | _ => simp_all [isCompositeB]

/-- Witness for C4 at a concrete nested value with a fractional number, a
dropped undefined member, and an array whose function element encodes as
null. -/
theorem stringify_parse_roundtrip_witness :
    ∃ s j, stringifyValue (.vObj [("a", .vNum (mkRat 9 2)),
        ("b", .vArr [.vBool true, .vNull, .vFunc "f"]), ("c", .vUndef)])
      = .ok (some s) ∧ jsonParse s = some j ∧
      jvalToValue j = jsonNormalize (.vObj [("a", .vNum (mkRat 9 2)),
        ("b", .vArr [.vBool true, .vNull, .vFunc "f"]), ("c", .vUndef)]) :=
  stringify_parse_roundtrip _ (by decide) (by decide) (by decide)
